import Mathlib

/-!
Verification of the matrixwatcher online analytical pipeline.

Shallow embedding of the core components of the repository
(event bus, threshold detector, cluster detector, anomaly-index
aggregator, historical pattern tracker, auto-calibrator) as pure Lean
functions, together with theorems settling the specification claims.

Conventions used throughout:
- Python floats are modelled as exact rationals (ℚ).
- Python dicts with insertion order are modelled as association lists.
- collections.deque with maxlen is modelled as a list whose append
  drops the oldest (leftmost) entry when the capacity is reached.
- Effectful callbacks are modelled by Boolean oracles supplied at each
  operation (true means the callback returned normally, false means it
  raised), since Python callbacks are arbitrary code.
-/

namespace MatrixWatcher

/-- Event types on the bus (src/core/types.py, class EventType). -/
inductive EventType
  | data | anomaly | error | health | alert
deriving DecidableEq, Repr

/-- Severity levels (src/core/types.py, class Severity). -/
inductive Severity
  | info | warning | critical
deriving DecidableEq, Repr

/-- Scalar Python values that can appear in an event payload.
Python bool is a subclass of int, so it counts as numeric for
isinstance(value, (int, float)); strings and None do not.  Container
values (dicts, lists) behave like the non-numeric cases here. -/
inductive PyVal
  | pyint (n : ℤ)
  | pyfloat (q : ℚ)
  | pybool (b : Bool)
  | pystr (s : String)
  | pynone
deriving DecidableEq, Repr

/-- Numeric test performed by ThresholdDetector.process:
isinstance(value, (int, float)).  Python bool passes this test. -/
def PyVal.isNumeric : PyVal → Bool
  | .pyint _ => true
  | .pyfloat _ => true
  | .pybool _ => true
  | _ => false

/-- float(value) for a numeric PyVal; non-numeric values are never
converted by the embedded code. -/
def PyVal.toRat : PyVal → ℚ
  | .pyint n => (n : ℚ)
  | .pyfloat q => q
  | .pybool b => if b then 1 else 0
  | _ => 0

/-- Bus event (src/core/types.py, class Event).  The metadata field is
omitted: none of the embedded code reads it. -/
structure Event where
  timestamp : ℚ
  source : String
  event_type : EventType
  payload : List (String × PyVal)
  severity : Severity
deriving DecidableEq, Repr

namespace EventBus

/-- Filter criteria (src/core/event_bus.py, class EventFilter). -/
structure EventFilter where
  event_types : Option (List EventType)
  sources : Option (List String)
  min_severity : Option Severity
deriving DecidableEq, Repr

/-- severity_order dict in EventFilter.matches; .get(x, 0) is total. -/
def severityOrder : Severity → Nat
  | .info => 0
  | .warning => 1
  | .critical => 2

/-- EventFilter.matches. -/
def EventFilter.matches (f : EventFilter) (e : Event) : Bool :=
  (match f.event_types with
   | Option.none => true
   | some ts => ts.contains e.event_type) &&
  (match f.sources with
   | Option.none => true
   | some ss => ss.contains e.source) &&
  (match f.min_severity with
   | Option.none => true
   | some m => severityOrder m ≤ severityOrder e.severity)

/-- A subscription (src/core/event_bus.py, class Subscription).  The
callback is not part of the state: its behaviour is supplied as an
oracle at each publish / flush operation. -/
structure Subscription where
  id : String
  filter : Option EventFilter
  buffer : List Event
  max_buffer_size : Nat
  dropped_count : Nat
deriving DecidableEq, Repr

/-- EventBus state.  peak_subscribers is a ghost variable (not in the
source): it records the largest subscriber count seen so far and is
used only to state the amended statistics bound. -/
structure Bus where
  subs : List Subscription
  max_buffer_size : Nat
  total_published : Nat
  total_delivered : Nat
  total_dropped : Nat
  peak_subscribers : Nat
deriving Repr

/-- EventBus.__init__. -/
def Bus.init (maxBuf : Nat) : Bus :=
  ⟨[], maxBuf, 0, 0, 0, 0⟩

/-- Python truthiness of an optional list (an empty list is falsy). -/
def truthyList {α : Type} : Option (List α) → Bool
  | Option.none => false
  | some l => !l.isEmpty

/-- Insertion into the subscription dict: replace in place when the id
exists, append otherwise (Python dict assignment semantics). -/
def insertSub : List Subscription → String → Subscription → List Subscription
  | [], _, s => [s]
  | t :: ts, id, s => if t.id = id then s :: ts else t :: insertSub ts id s

/-- EventBus.subscribe.  The subscription id (a uuid in the source) is
supplied by the environment.  A filter object is created only when one
of the three arguments is truthy. -/
def Bus.subscribe (b : Bus) (id : String) (event_types : Option (List EventType))
    (sources : Option (List String)) (min_severity : Option Severity) : Bus :=
  let filt : Option EventFilter :=
    if truthyList event_types || truthyList sources || min_severity.isSome then
      some ⟨event_types, sources, min_severity⟩
    else
      Option.none
  let subs' := insertSub b.subs id ⟨id, filt, [], b.max_buffer_size, 0⟩
  { b with subs := subs', peak_subscribers := max b.peak_subscribers subs'.length }

/-- Deletion from the subscription dict. -/
def removeSub : List Subscription → String → List Subscription
  | [], _ => []
  | t :: ts, id => if t.id = id then ts else t :: removeSub ts id

/-- EventBus.unsubscribe. -/
def Bus.unsubscribe (b : Bus) (id : String) : Bus × Bool :=
  if b.subs.any (fun s => s.id = id) then
    ({ b with subs := removeSub b.subs id }, true)
  else
    (b, false)

/-- Delivery to one subscriber inside EventBus.publish, after the
filter accepted the event: on success the delivered counter grows by
one; on a callback exception the event is buffered, dropping the
oldest buffered event first when the buffer is full.  Returns the
updated subscription and the (delivered, dropped) increments. -/
def publishDeliver (e : Event) (ok : String → Bool) (sub : Subscription) :
    Subscription × Nat × Nat :=
  if ok sub.id then
    (sub, 1, 0)
  else if sub.max_buffer_size ≤ sub.buffer.length then
    ({ sub with buffer := sub.buffer.tail ++ [e], dropped_count := sub.dropped_count + 1 }, 0, 1)
  else
    ({ sub with buffer := sub.buffer ++ [e] }, 0, 0)

/-- One iteration of the subscriber loop in EventBus.publish. -/
def publishStep (e : Event) (ok : String → Bool) (sub : Subscription) :
    Subscription × Nat × Nat :=
  match sub.filter with
  | some f => if f.matches e then publishDeliver e ok sub else (sub, 0, 0)
  | Option.none => publishDeliver e ok sub

/-- EventBus.publish.  The oracle ok tells, per subscription id,
whether the callback returns normally on this delivery. -/
def Bus.publish (b : Bus) (e : Event) (ok : String → Bool) : Bus × Nat :=
  let res := b.subs.map (publishStep e ok)
  let delivered := (res.map (fun r => r.2.1)).sum
  let dropped := (res.map (fun r => r.2.2)).sum
  ({ b with subs := res.map (fun r => r.1),
            total_published := b.total_published + 1,
            total_delivered := b.total_delivered + delivered,
            total_dropped := b.total_dropped + dropped },
   delivered)

/-- The delivery loop of EventBus.flush_buffer: deliver from the front
while the callback succeeds; on the first failure stop, leaving the
failed event at the front.  Returns the remaining buffer and the
number of delivered events. -/
def flushLoop (ok : Event → Bool) : List Event → List Event × Nat
  | [] => ([], 0)
  | e :: rest =>
    if ok e then
      let r := flushLoop ok rest
      (r.1, r.2 + 1)
    else
      (e :: rest, 0)

/-- Apply the flush loop to the subscription with the given id (the
first match, as in the dict lookup). -/
def flushSubs : List Subscription → String → (Event → Bool) → List Subscription × Nat
  | [], _, _ => ([], 0)
  | s :: ss, id, ok =>
    if s.id = id then
      let r := flushLoop ok s.buffer
      ({ s with buffer := r.1 } :: ss, r.2)
    else
      let r := flushSubs ss id ok
      (s :: r.1, r.2)

/-- EventBus.flush_buffer.  Note that it does not touch the bus-level
statistics counters. -/
def Bus.flushBuffer (b : Bus) (id : String) (ok : Event → Bool) : Bus × Nat :=
  let r := flushSubs b.subs id ok
  ({ b with subs := r.1 }, r.2)

/-- Statistics reported by EventBus.get_stats. -/
structure Stats where
  subscriber_count : Nat
  total_published : Nat
  total_delivered : Nat
  total_dropped : Nat
deriving DecidableEq, Repr

/-- EventBus.get_stats. -/
def Bus.getStats (b : Bus) : Stats :=
  ⟨b.subs.length, b.total_published, b.total_delivered, b.total_dropped⟩

/-- Dict lookup of a subscription by id (first match). -/
def findSub : List Subscription → String → Option Subscription
  | [], _ => Option.none
  | s :: ss, id => if s.id = id then some s else findSub ss id

/-- Operations of the event bus API that the claims quantify over. -/
inductive Op
  | subscribe (id : String) (event_types : Option (List EventType))
      (sources : Option (List String)) (min_severity : Option Severity)
  | unsubscribe (id : String)
  | publish (e : Event) (ok : String → Bool)
  | flushBuffer (id : String) (ok : Event → Bool)

/-- One API call. -/
def stepOp (b : Bus) : Op → Bus
  | .subscribe id ts ss ms => b.subscribe id ts ss ms
  | .unsubscribe id => (b.unsubscribe id).1
  | .publish e ok => (b.publish e ok).1
  | .flushBuffer id ok => (b.flushBuffer id ok).1

/-- A run of the bus from a fresh state. -/
def run (maxBuf : Nat) (ops : List Op) : Bus :=
  ops.foldl stepOp (Bus.init maxBuf)

/-- During one publish, each subscriber contributes at most one to the
delivered and dropped counters combined. -/
theorem publishStep_incr_le_one (e : Event) (ok : String → Bool) (sub : Subscription) :
    (publishStep e ok sub).2.1 + (publishStep e ok sub).2.2 ≤ 1 := by
  unfold publishStep publishDeliver
  cases sub.filter <;> simp only [] <;> split_ifs <;> simp_all

theorem publish_incr_le_length (e : Event) (ok : String → Bool) (l : List Subscription) :
    ((l.map (publishStep e ok)).map (fun r => r.2.1)).sum
      + ((l.map (publishStep e ok)).map (fun r => r.2.2)).sum ≤ l.length := by
  induction l with
  | nil => simp
  | cons s ss ih =>
    simp only [List.map_cons, List.sum_cons, List.length_cons]
    have h := publishStep_incr_le_one e ok s
    omega

theorem removeSub_length_le (l : List Subscription) (id : String) :
    (removeSub l id).length ≤ l.length := by
  induction l with
  | nil => simp [removeSub]
  | cons s ss ih =>
    simp only [removeSub]
    split
    · simp
    · simpa using Nat.succ_le_succ ih

theorem flushSubs_length (l : List Subscription) (id : String) (ok : Event → Bool) :
    (flushSubs l id ok).1.length = l.length := by
  induction l with
  | nil => simp [flushSubs]
  | cons s ss ih =>
    simp only [flushSubs]
    split
    · simp
    · simpa using congrArg Nat.succ ih

/-- The statistics invariant that actually holds on the bus: the
counters are bounded by published times the peak subscriber count. -/
def BusInv (b : Bus) : Prop :=
  b.total_delivered + b.total_dropped ≤ b.total_published * b.peak_subscribers ∧
    b.subs.length ≤ b.peak_subscribers

theorem stepOp_preserves_inv (b : Bus) (op : Op) (h : BusInv b) : BusInv (stepOp b op) := by
  obtain ⟨h1, h2⟩ := h
  cases op with
  | subscribe id ts ss ms =>
    refine ⟨le_trans h1 (Nat.mul_le_mul_left _ (le_max_left _ _)), le_max_right _ _⟩
  | unsubscribe id =>
    simp only [stepOp, Bus.unsubscribe]
    split
    · exact ⟨h1, le_trans (removeSub_length_le _ _) h2⟩
    · exact ⟨h1, h2⟩
  | publish e ok =>
    constructor
    · have hb := publish_incr_le_length e ok b.subs
      simp only [stepOp, Bus.publish]
      calc b.total_delivered + ((b.subs.map (publishStep e ok)).map (fun r => r.2.1)).sum
            + (b.total_dropped + ((b.subs.map (publishStep e ok)).map (fun r => r.2.2)).sum)
          ≤ (b.total_delivered + b.total_dropped) + b.subs.length := by omega
        _ ≤ b.total_published * b.peak_subscribers + b.peak_subscribers := by
            exact Nat.add_le_add h1 h2
        _ = (b.total_published + 1) * b.peak_subscribers := by ring
    · simpa [stepOp, Bus.publish] using h2
  | flushBuffer id ok =>
    exact ⟨h1, by simpa [stepOp, Bus.flushBuffer, flushSubs_length] using h2⟩

theorem foldl_preserves_inv (ops : List Op) (b : Bus) (h : BusInv b) :
    BusInv (ops.foldl stepOp b) := by
  induction ops generalizing b with
  | nil => exact h
  | cons op ops ih => exact ih _ (stepOp_preserves_inv b op h)

/-- A run in which the delivered count exceeds published times the
current subscriber count: subscribe, deliver once, unsubscribe. -/
def busCexEvent : Event :=
  ⟨0, "sensor", .data, [], .info⟩

def busCexOps : List Op :=
  [.subscribe "s" Option.none Option.none Option.none,
   .publish busCexEvent (fun _ => true),
   .unsubscribe "s"]

/-- C9 counterexample: after subscribe, one successful publish and an
unsubscribe, get_stats reports totalDelivered = 1, totalDropped = 0,
totalPublished = 1 and subscriberCount = 0, so
totalDelivered + totalDropped ≤ totalPublished × subscriberCount fails
on this reachable state. -/
theorem eventBus_stats_claim_cex :
    ¬ ((run 1000 busCexOps).getStats.total_delivered
        + (run 1000 busCexOps).getStats.total_dropped
      ≤ (run 1000 busCexOps).getStats.total_published
        * (run 1000 busCexOps).getStats.subscriber_count) := by
  decide

/-- C9 (amended): at every reachable state of the event bus, the
statistics satisfy totalDelivered + totalDropped ≤ totalPublished ×
peak subscriber count, where the peak is taken over the whole run
(the bound with the current subscriber count fails once a subscriber
that received events unsubscribes). -/
theorem eventBus_delivered_dropped_peak_bound (maxBuf : Nat) (ops : List Op) :
    (run maxBuf ops).getStats.total_delivered + (run maxBuf ops).getStats.total_dropped
      ≤ (run maxBuf ops).getStats.total_published * (run maxBuf ops).peak_subscribers := by
  have h := foldl_preserves_inv ops (Bus.init maxBuf) ⟨by simp [Bus.init], by simp [Bus.init]⟩
  exact h.1

theorem flushLoop_eq (ok : Event → Bool) (l : List Event) :
    flushLoop ok l = (l.dropWhile ok, (l.takeWhile ok).length) := by
  induction l with
  | nil => simp [flushLoop]
  | cons e rest ih =>
    simp only [flushLoop, List.dropWhile, List.takeWhile]
    split <;> simp_all

theorem flushSubs_count (l : List Subscription) (id : String) (ok : Event → Bool) :
    (flushSubs l id ok).2
      = (findSub l id).elim 0 (fun s => (s.buffer.takeWhile ok).length) := by
  induction l with
  | nil => simp [flushSubs, findSub]
  | cons s ss ih =>
    simp only [flushSubs, findSub]
    split
    · simp [flushLoop_eq]
    · simpa using ih

theorem flushSubs_buffer (l : List Subscription) (id : String) (ok : Event → Bool) :
    findSub (flushSubs l id ok).1 id
      = (findSub l id).map (fun s => { s with buffer := s.buffer.dropWhile ok }) := by
  induction l with
  | nil => simp [flushSubs, findSub]
  | cons s ss ih =>
    simp only [flushSubs, findSub]
    split
    · next h => simp [findSub, flushLoop_eq, h]
    · next h => simpa [findSub, h] using ih

theorem all_takeWhile_eventlist (ok : Event → Bool) (l : List Event) :
    (l.takeWhile ok).all ok = true := by
  induction l with
  | nil => simp
  | cons e rest ih =>
    simp only [List.takeWhile]
    split <;> simp_all

theorem head_dropWhile_fails (ok : Event → Bool) (l : List Event) :
    ((l.dropWhile ok).head?.elim true (fun e => !ok e)) = true := by
  induction l with
  | nil => simp
  | cons e rest ih =>
    simp only [List.dropWhile]
    split <;> simp_all

/-- C10: flush_buffer never discards a buffered event.  The returned
count is the length of the maximal successful prefix of the backlog,
the backlog keeps exactly the undelivered suffix (events are removed
only after the callback succeeded), every delivered event was a
callback success, and when a suffix remains its first event is the
failed one, still at the front. -/
theorem eventBus_flush_prefix_fifo (b : Bus) (id : String) (ok : Event → Bool) :
    (b.flushBuffer id ok).2
        = (findSub b.subs id).elim 0 (fun s => (s.buffer.takeWhile ok).length) ∧
    findSub ((b.flushBuffer id ok).1).subs id
        = (findSub b.subs id).map (fun s => { s with buffer := s.buffer.dropWhile ok }) ∧
    (∀ buf : List Event,
      buf = buf.takeWhile ok ++ buf.dropWhile ok ∧
      (buf.takeWhile ok).all ok = true ∧
      ((buf.dropWhile ok).head?.elim true (fun e => !ok e)) = true) := by
  refine ⟨flushSubs_count b.subs id ok, flushSubs_buffer b.subs id ok, fun buf => ?_⟩
  exact ⟨(List.takeWhile_append_dropWhile ok buf).symm,
         all_takeWhile_eventlist ok buf, head_dropWhile_fails ok buf⟩

end EventBus

/-- Python builtin min on two floats: the second argument wins only
when it is strictly smaller. -/
def pymin (a b : ℚ) : ℚ :=
  if b < a then b else a

theorem pymin_eq_min (a b : ℚ) : pymin a b = min a b := by
  unfold pymin
  rcases le_or_lt a b with h | h
  · rw [if_neg (not_lt.mpr h), min_eq_left h]
  · rw [if_pos h, min_eq_right h.le]

namespace PatternTracker

/-- A system condition (historical_pattern_tracker.py, dataclass Condition). -/
structure Condition where
  timestamp : ℚ
  level : Nat
  sources : List String
  anomaly_index : ℚ
  baseline_ratio : ℚ
deriving DecidableEq, Repr

/-- Lexicographic code-point comparison of character lists, the order
Python uses to compare strings. -/
def charListLt : List Char → List Char → Bool
  | _, [] => false
  | [], _ :: _ => true
  | a :: as, b :: bs =>
    if a.toNat < b.toNat then true
    else if b.toNat < a.toNat then false
    else charListLt as bs

/-- Python string comparison a < b. -/
def strLt (a b : String) : Bool :=
  charListLt a.data b.data

/-- Insertion step for sorted(): keep ascending lexicographic order. -/
def insertSorted (s : String) : List String → List String
  | [] => [s]
  | t :: ts => if strLt s t then s :: t :: ts else t :: insertSorted s ts

/-- Python sorted() on a list of strings. -/
def sortStrings (l : List String) : List String :=
  l.foldr insertSorted []

/-- Condition.to_key. -/
def Condition.to_key (c : Condition) : String :=
  "L" ++ toString c.level ++ "_" ++ String.intercalate "_" (sortStrings c.sources)

/-- A named external event (historical_pattern_tracker.py, dataclass
Event; distinct from the bus Event).  The metadata field is omitted:
the matching code never reads it. -/
structure NamedEvent where
  timestamp : ℚ
  event_type : String
  severity : String
  location : Option (ℚ × ℚ)
deriving DecidableEq, Repr

/-- A condition-to-event pattern (dataclass Pattern).  min_time_to_event
is Option ℚ with Option.none standing for float inf, exactly as the
JSON persistence serialises it. -/
structure Pattern where
  condition_key : String
  event_type : String
  condition_count : Nat
  event_after_count : Nat
  avg_time_to_event : ℚ
  min_time_to_event : Option ℚ
  max_time_to_event : ℚ
  predicted_probability : ℚ
  actual_probability : ℚ
  brier_score : ℚ
  event_locations : List (ℚ × ℚ)
deriving DecidableEq, Repr

/-- A fresh Pattern with the dataclass defaults. -/
def Pattern.mk0 (key ev : String) : Pattern :=
  ⟨key, ev, 0, 0, 0, Option.none, 0, 0, 0, 0, []⟩

/-- Pattern.update_probability. -/
def Pattern.update_probability (p : Pattern) : Pattern :=
  if 0 < p.condition_count then
    { p with actual_probability := pymin 1 ((p.event_after_count : ℚ) / (p.condition_count : ℚ)) }
  else
    { p with actual_probability := 0 }

/-- The keys of _create_event_definitions, in dict insertion order.
record_condition iterates over exactly these event types. -/
def eventDefinitionKeys : List String :=
  ["btc_pump_1h", "btc_dump_1h", "btc_pump_4h", "btc_dump_4h",
   "btc_pump_24h", "btc_dump_24h",
   "eth_pump_1h", "eth_dump_1h", "eth_pump_4h", "eth_dump_4h",
   "eth_pump_24h", "eth_dump_24h",
   "btc_volatility_high", "btc_volatility_medium",
   "blockchain_anomaly",
   "earthquake_moderate", "earthquake_strong", "earthquake_major",
   "solar_storm_moderate", "solar_storm_strong", "solar_storm_extreme",
   "earthquake_significant", "earthquake_moderate_old", "news_spike",
   "space_weather_storm", "quantum_anomaly"]

/-- An entry of the _recent_conditions deque: the condition, the
timestamp stored next to it, and the matched_events list. -/
structure ConditionItem where
  condition : Condition
  timestamp : ℚ
  matched_events : List String
deriving DecidableEq, Repr

/-- The nested _patterns map, condition key then event type. -/
def Pats : Type := String → String → Option Pattern

/-- Point update of the patterns map. -/
def updatePat (pats : Pats) (key ev : String) (p : Pattern) : Pats :=
  fun k e => if k = key ∧ e = ev then some p else pats k e

/-- Tracker state relevant to condition recording and event matching.
The price-history deques are untouched by these operations and are
left out. -/
structure TrackerState where
  recent_conditions : List ConditionItem
  patterns : Pats

/-- Append to a deque with maxlen: drop the oldest entry when full. -/
def dequeAppend {α : Type} (cap : Nat) (l : List α) (x : α) : List α :=
  if cap ≤ l.length then l.tail ++ [x] else l ++ [x]

/-- LOOKBACK_WINDOW_HOURS converted to seconds. -/
def lookbackWindow : ℚ := 72 * 3600

/-- The per-event-type body of record_condition: create the pattern if
missing, increment condition_count, recompute the probability. -/
def recordForEvent (key : String) (pats : Pats) (ev : String) : Pats :=
  let p :=
    match pats key ev with
    | some p => p
    | Option.none => Pattern.mk0 key ev
  updatePat pats key ev
    (Pattern.update_probability { p with condition_count := p.condition_count + 1 })

/-- HistoricalPatternTracker.record_condition. -/
def record_condition (st : TrackerState) (c : Condition) : TrackerState :=
  { recent_conditions := dequeAppend 5000 st.recent_conditions ⟨c, c.timestamp, []⟩,
    patterns := eventDefinitionKeys.foldl (recordForEvent c.to_key) st.patterns }

/-- The location bookkeeping inside _match_event_with_conditions: if
the event carries a location, append it to event_locations, keeping
only the 1000 most recent entries. -/
def recordLocation (loc? : Option (ℚ × ℚ)) (p : Pattern) : Pattern :=
  match loc? with
  | some loc =>
    let locs := p.event_locations ++ [loc]
    { p with event_locations :=
        if 1000 < locs.length then locs.drop (locs.length - 1000) else locs }
  | Option.none => p

/-- Comparison of the elapsed time against min_time_to_event, where
Option.none stands for float inf (anything is below it). -/
def minTimeLt (time_diff : ℚ) : Option ℚ → Bool
  | Option.none => true
  | some m => time_diff < m

/-- The pattern-statistics update performed when a stored condition
matches the event (the body of the innermost if of
_match_event_with_conditions): bump event_after_count, record the
location, update min/max and the incremental mean, recompute the
probability. -/
def applyPattern (ev : NamedEvent) (time_diff : ℚ) (p : Pattern) : Pattern :=
  let p := { p with event_after_count := p.event_after_count + 1 }
  let p := recordLocation ev.location p
  let p :=
    if minTimeLt time_diff p.min_time_to_event then
      { p with min_time_to_event := some time_diff }
    else p
  let p :=
    if p.max_time_to_event < time_diff then
      { p with max_time_to_event := time_diff }
    else p
  let n : ℚ := (p.event_after_count : ℚ)
  let p := { p with avg_time_to_event := (p.avg_time_to_event * (n - 1) + time_diff) / n }
  p.update_probability

/-- Store the updated pattern and mark the condition as matched. -/
def applyMatch (pats : Pats) (ev : NamedEvent) (item : ConditionItem)
    (time_diff : ℚ) (p : Pattern) : Pats × ConditionItem :=
  (updatePat pats item.condition.to_key ev.event_type (applyPattern ev time_diff p),
   { item with matched_events := item.matched_events ++ [ev.event_type] })

/-- One iteration of the condition loop in
_match_event_with_conditions, for a single stored condition. -/
def matchOne (pats : Pats) (ev : NamedEvent) (item : ConditionItem) :
    Pats × ConditionItem :=
  let time_diff := ev.timestamp - item.condition.timestamp
  if 0 < time_diff ∧ time_diff < lookbackWindow then
    if ev.event_type ∈ item.matched_events then
      (pats, item)
    else
      match pats item.condition.to_key ev.event_type with
      | some p => applyMatch pats ev item time_diff p
      | Option.none => (pats, item)
  else
    (pats, item)

/-- HistoricalPatternTracker._match_event_with_conditions: process
every stored condition in order, threading the patterns map. -/
def match_event (st : TrackerState) (ev : NamedEvent) : TrackerState :=
  let r := st.recent_conditions.foldl
    (fun (acc : Pats × List ConditionItem) item =>
      let one := matchOne acc.1 ev item
      (one.1, acc.2 ++ [one.2]))
    (st.patterns, [])
  { recent_conditions := r.2, patterns := r.1 }

/-- Tracker operations the claims quantify over: record_condition and
event matching (check_events performs one match_event call per fired
event, with an arbitrary NamedEvent). -/
inductive TrOp
  | record (c : Condition)
  | matchEv (e : NamedEvent)

def trStep (st : TrackerState) : TrOp → TrackerState
  | .record c => record_condition st c
  | .matchEv e => match_event st e

/-- The empty tracker (no patterns or conditions loaded from disk). -/
def trInit : TrackerState :=
  ⟨[], fun _ _ => Option.none⟩

def trRun (ops : List TrOp) : TrackerState :=
  ops.foldl trStep trInit

theorem updatePat_same (pats : Pats) (key ev : String) (p : Pattern) :
    updatePat pats key ev p key ev = some p := by
  simp [updatePat]

theorem updatePat_other (pats : Pats) (key ev : String) (p : Pattern) {k e : String}
    (h : ¬(k = key ∧ e = ev)) : updatePat pats key ev p k e = pats k e := by
  simp only [updatePat, if_neg h]

/-- The cell content written by the per-event body of
record_condition, as a function of the previous content. -/
def bumpPattern (key ev : String) (o : Option Pattern) : Pattern :=
  let p := o.getD (Pattern.mk0 key ev)
  Pattern.update_probability { p with condition_count := p.condition_count + 1 }

theorem recordForEvent_same (pats : Pats) (key ev : String) :
    recordForEvent key pats ev key ev = some (bumpPattern key ev (pats key ev)) := by
  unfold recordForEvent bumpPattern
  cases pats key ev <;> simp [updatePat_same]

theorem recordForEvent_other (pats : Pats) (key ev : String) {k e : String}
    (h : ¬(k = key ∧ e = ev)) : recordForEvent key pats ev k e = pats k e := by
  unfold recordForEvent
  cases pats key ev <;> simp [updatePat_other _ _ _ _ h]

/-- Lookup characterisation of the pattern-creation fold inside
record_condition: exactly the cells (key, e) for e among the iterated
event types are bumped, all other cells are untouched. -/
theorem foldl_record_lookup (key : String) (keys : List String) (pats : Pats)
    (k e : String) (hnd : keys.Nodup) :
    (keys.foldl (recordForEvent key) pats) k e =
      if k = key ∧ e ∈ keys then some (bumpPattern key e (pats key e)) else pats k e := by
  induction keys generalizing pats with
  | nil => simp
  | cons ev rest ih =>
    obtain ⟨hev, hrest⟩ := List.nodup_cons.mp hnd
    rw [List.foldl_cons, ih _ hrest]
    by_cases hmem : k = key ∧ e ∈ rest
    · have hne : ¬(e = ev) := fun h => hev (h ▸ hmem.2)
      rw [if_pos hmem, if_pos ⟨hmem.1, List.mem_cons.mpr (Or.inr hmem.2)⟩,
        recordForEvent_other pats key ev (by tauto)]
    · rw [if_neg hmem]
      by_cases hke : k = key ∧ e = ev
      · rw [if_pos ⟨hke.1, List.mem_cons.mpr (Or.inl hke.2)⟩, hke.1, hke.2,
          recordForEvent_same]
      · have : ¬(k = key ∧ e ∈ ev :: rest) := by
          intro ⟨h1, h2⟩
          rcases List.mem_cons.mp h2 with h2 | h2
          · exact hke ⟨h1, h2⟩
          · exact hmem ⟨h1, h2⟩
        rw [if_neg this, recordForEvent_other pats key ev hke]

theorem eventDefinitionKeys_nodup : eventDefinitionKeys.Nodup := by
  decide

/-- Number of stored conditions with the given key that have not yet
matched the given event type. -/
def unmatchedCount (items : List ConditionItem) (k e : String) : Nat :=
  items.countP (fun it => decide (it.condition.to_key = k ∧ e ∉ it.matched_events))

theorem unmatchedCount_append (l1 l2 : List ConditionItem) (k e : String) :
    unmatchedCount (l1 ++ l2) k e = unmatchedCount l1 k e + unmatchedCount l2 k e := by
  simp [unmatchedCount, List.countP_append]

theorem unmatchedCount_tail_le (l : List ConditionItem) (k e : String) :
    unmatchedCount l.tail k e ≤ unmatchedCount l k e := by
  cases l with
  | nil => simp
  | cons a l => simp only [unmatchedCount, List.tail_cons, List.countP_cons]; omega

theorem unmatchedCount_dequeAppend_le (cap : Nat) (l : List ConditionItem)
    (x : ConditionItem) (k e : String) :
    unmatchedCount (dequeAppend cap l x) k e ≤
      unmatchedCount l k e
        + (if x.condition.to_key = k ∧ e ∉ x.matched_events then 1 else 0) := by
  unfold dequeAppend
  split
  · rw [unmatchedCount_append]
    have h := unmatchedCount_tail_le l k e
    simp only [unmatchedCount, List.countP_cons, List.countP_nil] at *
    split <;> simp_all <;> omega
  · rw [unmatchedCount_append]
    simp only [unmatchedCount, List.countP_cons, List.countP_nil]
    split <;> simp_all

theorem mem_dequeAppend {α : Type} {cap : Nat} {l : List α} {x y : α}
    (h : y ∈ dequeAppend cap l x) : y ∈ l ∨ y = x := by
  unfold dequeAppend at h
  split at h
  · rcases List.mem_append.mp h with h | h
    · exact Or.inl (List.mem_of_mem_tail h)
    · exact Or.inr (List.mem_singleton.mp h)
  · rcases List.mem_append.mp h with h | h
    · exact Or.inl h
    · exact Or.inr (List.mem_singleton.mp h)

/-- The invariants that hold of the patterns map together with the
stored-conditions deque at every reachable tracker state. -/
structure PInv (pats : Pats) (items : List ConditionItem) : Prop where
  count_le : ∀ k e p, pats k e = some p →
    p.event_after_count + unmatchedCount items k e ≤ p.condition_count
  prob_eq : ∀ k e p, pats k e = some p →
    p.actual_probability =
      (if 0 < p.condition_count then
        pymin 1 ((p.event_after_count : ℚ) / (p.condition_count : ℚ)) else 0)
  timing : ∀ k e p, pats k e = some p → 0 < p.event_after_count →
    ∃ m, p.min_time_to_event = some m ∧ m ≤ p.avg_time_to_event ∧
      p.avg_time_to_event ≤ p.max_time_to_event
  domain : ∀ k e, (pats k e).isSome = true → e ∈ eventDefinitionKeys
  covered : ∀ it ∈ items, ∀ e ∈ eventDefinitionKeys,
    (pats it.condition.to_key e).isSome = true

theorem bumpPattern_fields (key ev : String) (o : Option Pattern) :
    (bumpPattern key ev o).condition_count = (o.getD (Pattern.mk0 key ev)).condition_count + 1 ∧
    (bumpPattern key ev o).event_after_count = (o.getD (Pattern.mk0 key ev)).event_after_count ∧
    (bumpPattern key ev o).min_time_to_event = (o.getD (Pattern.mk0 key ev)).min_time_to_event ∧
    (bumpPattern key ev o).avg_time_to_event = (o.getD (Pattern.mk0 key ev)).avg_time_to_event ∧
    (bumpPattern key ev o).max_time_to_event = (o.getD (Pattern.mk0 key ev)).max_time_to_event ∧
    (bumpPattern key ev o).actual_probability =
      pymin 1 (((bumpPattern key ev o).event_after_count : ℚ)
        / ((bumpPattern key ev o).condition_count : ℚ)) := by
  unfold bumpPattern Pattern.update_probability
  simp

theorem record_preserves_inv (st : TrackerState) (c : Condition)
    (h : PInv st.patterns st.recent_conditions) :
    PInv (record_condition st c).patterns (record_condition st c).recent_conditions := by
  have hlook := fun k e => foldl_record_lookup c.to_key eventDefinitionKeys st.patterns k e
    eventDefinitionKeys_nodup
  have hmono : ∀ k e, (st.patterns k e).isSome = true →
      ((record_condition st c).patterns k e).isSome = true := by
    intro k e hs
    simp only [record_condition, hlook k e]
    split <;> simp_all
  constructor
  · -- count_le
    intro k e p hp
    simp only [record_condition] at hp ⊢
    rw [hlook k e] at hp
    have hdeque := unmatchedCount_dequeAppend_le 5000 st.recent_conditions
      ⟨c, c.timestamp, ([] : List String)⟩ k e
    split at hp
    · next hc =>
      obtain ⟨hk, hein⟩ := hc
      subst hk
      injection hp with hp
      subst hp
      obtain ⟨hfc, hfe, -, -, -, -⟩ :=
        bumpPattern_fields c.to_key e (st.patterns c.to_key e)
      rw [hfc, hfe]
      cases ho : st.patterns c.to_key e with
      | some q =>
        have hold := h.count_le c.to_key e q ho
        simp only [Option.getD_some]
        split at hdeque <;> omega
      | none =>
        have hzero : unmatchedCount st.recent_conditions c.to_key e = 0 := by
          apply List.countP_eq_zero.mpr
          intro it hit
          simp only [decide_eq_true_eq]
          intro ⟨h1, _⟩
          have := h.covered it hit e hein
          rw [h1, ho] at this
          simp at this
        simp only [Option.getD_none, Pattern.mk0]
        split at hdeque <;> omega
    · next hc =>
      have hold := h.count_le k e p hp
      have hkne : ¬(c.to_key = k ∧ e ∉ ([] : List String)) := by
        intro ⟨h1, _⟩
        have hdom := h.domain k e (by rw [hp]; rfl)
        exact hc ⟨h1.symm, hdom⟩
      rw [if_neg hkne] at hdeque
      omega
  · -- prob_eq
    intro k e p hp
    simp only [record_condition] at hp
    rw [hlook k e] at hp
    split at hp
    · injection hp with hp
      subst hp
      obtain ⟨hfc, -, -, -, -, hfa⟩ :=
        bumpPattern_fields c.to_key e (st.patterns c.to_key e)
      rw [if_pos (by omega)]
      exact hfa
    · exact h.prob_eq k e p hp
  · -- timing
    intro k e p hp hpos
    simp only [record_condition] at hp
    rw [hlook k e] at hp
    split at hp
    · injection hp with hp
      subst hp
      obtain ⟨-, hfe, hfm, hfavg, hfmax, -⟩ :=
        bumpPattern_fields c.to_key e (st.patterns c.to_key e)
      rw [hfe] at hpos
      rw [hfm, hfavg, hfmax]
      cases ho : st.patterns c.to_key e with
      | some q =>
        rw [ho] at hpos
        simp only [Option.getD_some] at hpos ⊢
        exact h.timing c.to_key e q ho hpos
      | none =>
        rw [ho] at hpos
        simp only [Option.getD_none] at hpos
        simp [Pattern.mk0] at hpos
    · exact h.timing k e p hp hpos
  · -- domain
    intro k e hs
    simp only [record_condition] at hs
    rw [hlook k e] at hs
    split at hs
    · next hc => exact hc.2
    · exact h.domain k e hs
  · -- covered
    intro it hit e he
    simp only [record_condition] at hit
    rcases mem_dequeAppend hit with hold | hnew
    · exact hmono _ _ (h.covered it hold e he)
    · rw [hnew]
      show ((record_condition st c).patterns c.to_key e).isSome = true
      simp only [record_condition]
      rw [hlook, if_pos ⟨rfl, he⟩]
      rfl

theorem recordLocation_fields (o : Option (ℚ × ℚ)) (p : Pattern) :
    (recordLocation o p).condition_count = p.condition_count ∧
    (recordLocation o p).event_after_count = p.event_after_count ∧
    (recordLocation o p).min_time_to_event = p.min_time_to_event ∧
    (recordLocation o p).avg_time_to_event = p.avg_time_to_event ∧
    (recordLocation o p).max_time_to_event = p.max_time_to_event := by
  cases o <;> simp [recordLocation]

theorem applyPattern_condition_count (ev : NamedEvent) (td : ℚ) (p : Pattern) :
    (applyPattern ev td p).condition_count = p.condition_count := by
  simp only [applyPattern, Pattern.update_probability]
  split_ifs <;> simp [(recordLocation_fields ev.location _).1]

theorem applyPattern_event_after_count (ev : NamedEvent) (td : ℚ) (p : Pattern) :
    (applyPattern ev td p).event_after_count = p.event_after_count + 1 := by
  simp only [applyPattern, Pattern.update_probability]
  split_ifs <;> simp [(recordLocation_fields ev.location _).2.1]

theorem applyPattern_min (ev : NamedEvent) (td : ℚ) (p : Pattern) :
    (applyPattern ev td p).min_time_to_event =
      some ((p.min_time_to_event.elim td (fun m => if td < m then td else m))) := by
  obtain ⟨ck, et, cc, eac, avg, mn, mx, pp, ap, bs, el⟩ := p
  unfold applyPattern Pattern.update_probability
  cases ev.location <;> cases mn <;>
    simp only [recordLocation, minTimeLt] <;>
    split_ifs <;> simp_all <;>
    exact (if_neg (not_lt.mpr (by assumption))).symm

theorem applyPattern_max (ev : NamedEvent) (td : ℚ) (p : Pattern) :
    (applyPattern ev td p).max_time_to_event =
      if p.max_time_to_event < td then td else p.max_time_to_event := by
  obtain ⟨ck, et, cc, eac, avg, mn, mx, pp, ap, bs, el⟩ := p
  unfold applyPattern Pattern.update_probability
  cases ev.location <;> cases mn <;>
    simp only [recordLocation, minTimeLt] <;>
    split_ifs <;> simp_all

theorem applyPattern_avg (ev : NamedEvent) (td : ℚ) (p : Pattern) :
    (applyPattern ev td p).avg_time_to_event =
      (p.avg_time_to_event * (((p.event_after_count : ℚ) + 1) - 1) + td)
        / ((p.event_after_count : ℚ) + 1) := by
  obtain ⟨ck, et, cc, eac, avg, mn, mx, pp, ap, bs, el⟩ := p
  unfold applyPattern Pattern.update_probability
  cases ev.location <;> cases mn <;>
    simp only [recordLocation, minTimeLt] <;>
    split_ifs <;> (try push_cast) <;> (try ring_nf) <;> (try simp_all)

theorem applyPattern_actual (ev : NamedEvent) (td : ℚ) (p : Pattern) :
    (applyPattern ev td p).actual_probability =
      (if 0 < (applyPattern ev td p).condition_count then
        pymin 1 (((applyPattern ev td p).event_after_count : ℚ)
          / ((applyPattern ev td p).condition_count : ℚ)) else 0) := by
  rw [applyPattern_condition_count, applyPattern_event_after_count]
  obtain ⟨ck, et, cc, eac, avg, mn, mx, pp, ap, bs, el⟩ := p
  unfold applyPattern Pattern.update_probability
  cases ev.location <;> cases mn <;>
    simp only [recordLocation, minTimeLt] <;>
    split_ifs <;> simp_all

theorem applyPattern_timing (ev : NamedEvent) (td : ℚ) (p : Pattern)
    (ht : 0 < p.event_after_count →
      ∃ m, p.min_time_to_event = some m ∧ m ≤ p.avg_time_to_event ∧
        p.avg_time_to_event ≤ p.max_time_to_event) :
    ∃ m, (applyPattern ev td p).min_time_to_event = some m ∧
      m ≤ (applyPattern ev td p).avg_time_to_event ∧
      (applyPattern ev td p).avg_time_to_event ≤ (applyPattern ev td p).max_time_to_event := by
  rw [applyPattern_min, applyPattern_max, applyPattern_avg]
  rcases Nat.eq_zero_or_pos p.event_after_count with hz | hpos
  · -- first match: the new average is exactly td
    have havg : (p.avg_time_to_event * (((p.event_after_count : ℚ) + 1) - 1) + td)
        / ((p.event_after_count : ℚ) + 1) = td := by
      rw [hz]
      push_cast
      ring_nf
    rw [havg]
    refine ⟨_, rfl, ?_, ?_⟩
    · cases hm : p.min_time_to_event with
      | none => simp
      | some m =>
        simp only [Option.elim]
        split_ifs with h
        · exact le_refl td
        · exact not_lt.mp h
    · split_ifs with h
      · exact le_refl td
      · exact not_lt.mp h
  · obtain ⟨m0, hm0, hma, hmb⟩ := ht hpos
    rw [hm0]
    simp only [Option.elim]
    have hn1 : (1 : ℚ) ≤ (p.event_after_count : ℚ) := by exact_mod_cast hpos
    have hnpos : (0 : ℚ) < (p.event_after_count : ℚ) + 1 := by linarith
    have hsub : (0 : ℚ) ≤ ((p.event_after_count : ℚ) + 1) - 1 := by linarith
    set n : ℚ := (p.event_after_count : ℚ) + 1 with hn
    refine ⟨_, rfl, ?_, ?_⟩
    · rw [le_div_iff hnpos]
      split_ifs with h
      · nlinarith [mul_le_mul_of_nonneg_right (le_of_lt (lt_of_lt_of_le h hma)) hsub]
      · nlinarith [mul_le_mul_of_nonneg_right hma hsub, not_lt.mp h]
    · rw [div_le_iff hnpos]
      split_ifs with h
      · nlinarith [mul_le_mul_of_nonneg_right (hmb.trans (le_of_lt h)) hsub]
      · nlinarith [mul_le_mul_of_nonneg_right hmb hsub, not_lt.mp h]

theorem unmatchedCount_middle (pre post : List ConditionItem) (x : ConditionItem)
    (k e : String) :
    unmatchedCount (pre ++ x :: post) k e =
      unmatchedCount pre k e
        + (if x.condition.to_key = k ∧ e ∉ x.matched_events then 1 else 0)
        + unmatchedCount post k e := by
  simp only [unmatchedCount, List.countP_append, List.countP_cons, decide_eq_true_eq]
  split <;> omega

theorem updatePat_isSome_mono (pats : Pats) (key ev : String) (q : Pattern)
    {k e : String} (h : (pats k e).isSome = true) :
    (updatePat pats key ev q k e).isSome = true := by
  unfold updatePat
  split <;> simp_all

theorem matchOne_preserves_inv (pats : Pats) (ev : NamedEvent)
    (pre post : List ConditionItem) (item : ConditionItem)
    (h : PInv pats (pre ++ item :: post)) :
    PInv (matchOne pats ev item).1 (pre ++ (matchOne pats ev item).2 :: post) := by
  simp only [matchOne]
  split_ifs with htd hmem
  · exact h
  · split
    · next p hp =>
      simp only [applyMatch]
      have htiming := h.timing item.condition.to_key ev.event_type p hp
      have hcc := applyPattern_condition_count ev (ev.timestamp - item.condition.timestamp) p
      have heac := applyPattern_event_after_count ev (ev.timestamp - item.condition.timestamp) p
      constructor
      · intro k e r hr
        rw [unmatchedCount_middle]
        by_cases hke : k = item.condition.to_key ∧ e = ev.event_type
        · obtain ⟨rfl, rfl⟩ := hke
          rw [updatePat_same] at hr
          injection hr with hr
          subst hr
          have hcount := h.count_le item.condition.to_key ev.event_type p hp
          rw [unmatchedCount_middle] at hcount
          rw [if_pos ⟨rfl, hmem⟩] at hcount
          rw [if_neg (show ¬(({ item with matched_events := item.matched_events ++ [ev.event_type] } : ConditionItem).condition.to_key = item.condition.to_key ∧ ev.event_type ∉ ({ item with matched_events := item.matched_events ++ [ev.event_type] } : ConditionItem).matched_events) from fun hcon => hcon.2 (by simp))]
          omega
        · rw [updatePat_other _ _ _ _ hke] at hr
          have hcount := h.count_le k e r hr
          rw [unmatchedCount_middle] at hcount
          have hpred : (if ({ item with matched_events := item.matched_events ++ [ev.event_type] } : ConditionItem).condition.to_key = k ∧ e ∉ ({ item with matched_events := item.matched_events ++ [ev.event_type] } : ConditionItem).matched_events then 1 else 0) = (if item.condition.to_key = k ∧ e ∉ item.matched_events then 1 else 0) := by
            by_cases hk : item.condition.to_key = k
            · have heE : ¬(e = ev.event_type) := fun hcon => hke ⟨hk.symm, hcon⟩
              have hiff : (e ∉ ({ item with matched_events := item.matched_events ++ [ev.event_type] } : ConditionItem).matched_events) ↔ (e ∉ item.matched_events) := by
                simp [heE]
              by_cases hm : e ∉ item.matched_events
              · rw [if_pos ⟨hk, hiff.mpr hm⟩, if_pos ⟨hk, hm⟩]
              · rw [if_neg (fun hcon => hm (hiff.mp hcon.2)), if_neg (fun hcon => hm hcon.2)]
            · rw [if_neg (fun hcon => hk hcon.1), if_neg (fun hcon => hk hcon.1)]
          rw [hpred]
          omega
      · intro k e r hr
        by_cases hke : k = item.condition.to_key ∧ e = ev.event_type
        · obtain ⟨rfl, rfl⟩ := hke
          rw [updatePat_same] at hr
          injection hr with hr
          subst hr
          exact applyPattern_actual ev (ev.timestamp - item.condition.timestamp) p
        · rw [updatePat_other _ _ _ _ hke] at hr
          exact h.prob_eq k e r hr
      · intro k e r hr hpos
        by_cases hke : k = item.condition.to_key ∧ e = ev.event_type
        · obtain ⟨rfl, rfl⟩ := hke
          rw [updatePat_same] at hr
          injection hr with hr
          subst hr
          exact applyPattern_timing ev (ev.timestamp - item.condition.timestamp) p htiming
        · rw [updatePat_other _ _ _ _ hke] at hr
          exact h.timing k e r hr hpos
      · intro k e hs
        by_cases hke : k = item.condition.to_key ∧ e = ev.event_type
        · obtain ⟨rfl, rfl⟩ := hke
          exact h.domain item.condition.to_key ev.event_type (by rw [hp]; rfl)
        · rw [show (updatePat pats item.condition.to_key ev.event_type (applyPattern ev (ev.timestamp - item.condition.timestamp) p) k e) = pats k e from updatePat_other _ _ _ _ hke] at hs
          exact h.domain k e hs
      · intro it hit e he
        have hmem2 : it ∈ pre ∨ it = ({ item with matched_events := item.matched_events ++ [ev.event_type] } : ConditionItem) ∨ it ∈ post := by
          simpa [List.mem_append, List.mem_cons] using hit
        rcases hmem2 with hin | rfl | hin
        · exact updatePat_isSome_mono pats _ _ _ (h.covered it (by simp [hin]) e he)
        · exact updatePat_isSome_mono pats _ _ _ (h.covered item (by simp) e he)
        · exact updatePat_isSome_mono pats _ _ _ (h.covered it (by simp [hin]) e he)
    · exact h
  · exact h

theorem match_fold_preserves (ev : NamedEvent) (remaining : List ConditionItem) :
    ∀ (pats : Pats) (processed : List ConditionItem),
    PInv pats (processed ++ remaining) →
    PInv (remaining.foldl (fun (acc : Pats × List ConditionItem) item =>
        (((matchOne acc.1 ev item)).1, acc.2 ++ [(matchOne acc.1 ev item).2]))
        (pats, processed)).1
      (remaining.foldl (fun (acc : Pats × List ConditionItem) item =>
        (((matchOne acc.1 ev item)).1, acc.2 ++ [(matchOne acc.1 ev item).2]))
        (pats, processed)).2 := by
  induction remaining with
  | nil => intro pats processed h; simpa using h
  | cons item rest ih =>
    intro pats processed h
    simp only [List.foldl_cons]
    have h1 := matchOne_preserves_inv pats ev processed rest item h
    have h2 : processed ++ (matchOne pats ev item).2 :: rest
        = (processed ++ [(matchOne pats ev item).2]) ++ rest := by
      simp
    rw [h2] at h1
    exact ih _ _ h1

theorem match_event_preserves_inv (st : TrackerState) (ev : NamedEvent)
    (h : PInv st.patterns st.recent_conditions) :
    PInv (match_event st ev).patterns (match_event st ev).recent_conditions := by
  have hfold := match_fold_preserves ev st.recent_conditions st.patterns []
    (by simpa using h)
  simpa [match_event] using hfold

theorem trInit_inv : PInv trInit.patterns trInit.recent_conditions := by
  constructor <;> intros <;> simp_all [trInit]

theorem trRun_inv (ops : List TrOp) :
    PInv (trRun ops).patterns (trRun ops).recent_conditions := by
  suffices h : ∀ st, PInv st.patterns st.recent_conditions →
      PInv (ops.foldl trStep st).patterns (ops.foldl trStep st).recent_conditions from
    h trInit trInit_inv
  induction ops with
  | nil => exact fun st h => h
  | cons op rest ih =>
    intro st h
    apply ih
    cases op with
    | record c => exact record_preserves_inv st c h
    | matchEv e => exact match_event_preserves_inv st e h

/-- C1: for every Pattern held by the tracker after any sequence of
record_condition and event-matching calls starting from an empty
tracker, 0 ≤ event_after_count ≤ condition_count, actual_probability
equals min(1, event_after_count / condition_count) (0 when
condition_count = 0), hence lies in [0, 1], and
min_time_to_event ≤ avg_time_to_event ≤ max_time_to_event whenever
event_after_count > 0 (min_time_to_event = Option.none models the
initial float inf). -/
theorem patternTracker_pattern_invariants (ops : List TrOp) (k e : String) (p : Pattern)
    (hp : (trRun ops).patterns k e = some p) :
    0 ≤ p.event_after_count ∧ p.event_after_count ≤ p.condition_count ∧
    p.actual_probability =
      (if 0 < p.condition_count then
        pymin 1 ((p.event_after_count : ℚ) / (p.condition_count : ℚ)) else 0) ∧
    0 ≤ p.actual_probability ∧ p.actual_probability ≤ 1 ∧
    (0 < p.event_after_count →
      ∃ m, p.min_time_to_event = some m ∧ m ≤ p.avg_time_to_event ∧
        p.avg_time_to_event ≤ p.max_time_to_event) := by
  have hinv := trRun_inv ops
  have hc := hinv.count_le k e p hp
  have hprob := hinv.prob_eq k e p hp
  have ht := hinv.timing k e p hp
  have hdiv : (0 : ℚ) ≤ (p.event_after_count : ℚ) / (p.condition_count : ℚ) :=
    div_nonneg (Nat.cast_nonneg _) (Nat.cast_nonneg _)
  refine ⟨Nat.zero_le _, by omega, hprob, ?_, ?_, ht⟩
  · rw [hprob]
    split_ifs with h
    · unfold pymin
      split_ifs with h2
      · exact hdiv
      · norm_num
    · exact le_refl 0
  · rw [hprob]
    split_ifs with h
    · unfold pymin
      split_ifs with h2
      · linarith
      · exact le_refl 1
    · norm_num

/-- A concrete condition used by the witnesses. -/
def wCond : Condition :=
  ⟨0, 3, ["earthquake", "crypto"], 50, 1⟩

def wTrOps : List TrOp :=
  [TrOp.record wCond]

def wPat : Pattern :=
  bumpPattern wCond.to_key "btc_pump_1h" Option.none

theorem patternTracker_pattern_invariants_witness :
    (trRun wTrOps).patterns "L3_crypto_earthquake" "btc_pump_1h" = some wPat ∧
    wPat.event_after_count ≤ wPat.condition_count ∧
    0 ≤ wPat.actual_probability ∧ wPat.actual_probability ≤ 1 := by
  have hp : (trRun wTrOps).patterns "L3_crypto_earthquake" "btc_pump_1h" = some wPat := by
    show (record_condition trInit wCond).patterns "L3_crypto_earthquake" "btc_pump_1h"
        = some wPat
    simp only [record_condition]
    rw [foldl_record_lookup wCond.to_key eventDefinitionKeys trInit.patterns _ _
      eventDefinitionKeys_nodup]
    rw [if_pos ⟨(by decide : "L3_crypto_earthquake" = wCond.to_key),
      (by decide : "btc_pump_1h" ∈ eventDefinitionKeys)⟩]
    rfl
  have h := patternTracker_pattern_invariants wTrOps "L3_crypto_earthquake" "btc_pump_1h"
    wPat hp
  exact ⟨hp, h.2.1, h.2.2.2.1, h.2.2.2.2.1⟩

/-- Current event_after_count of the pattern at a given cell (0 when
the pattern does not exist). -/
def eacAt (pats : Pats) (k e : String) : Nat :=
  (pats k e).elim 0 (fun p => p.event_after_count)

theorem matchOne_skip (pats : Pats) (ev : NamedEvent) (item : ConditionItem)
    (hmem : ev.event_type ∈ item.matched_events) :
    matchOne pats ev item = (pats, item) := by
  simp only [matchOne]
  split_ifs <;> simp_all

theorem matchOne_cases (pats : Pats) (ev : NamedEvent) (item : ConditionItem) :
    matchOne pats ev item = (pats, item) ∨
    (ev.event_type ∉ item.matched_events ∧
     (matchOne pats ev item).2.matched_events = item.matched_events ++ [ev.event_type] ∧
     ∀ k' e', eacAt (matchOne pats ev item).1 k' e' ≤
       eacAt pats k' e'
         + (if k' = item.condition.to_key ∧ e' = ev.event_type then 1 else 0)) := by
  simp only [matchOne]
  split_ifs with h1 h2
  · exact Or.inl rfl
  · split
    · next p hp =>
      right
      simp only [applyMatch]
      refine ⟨h2, trivial, ?_⟩
      intro k' e'
      by_cases hke : k' = item.condition.to_key ∧ e' = ev.event_type
      · obtain ⟨rfl, rfl⟩ := hke
        simp [eacAt, updatePat_same, hp, Option.elim, applyPattern_event_after_count]
      · simp only [eacAt, updatePat_other _ _ _ _ hke, if_neg hke]
        omega
    · exact Or.inl rfl
  · exact Or.inl rfl

theorem matchFold_stuck (E : String) :
    ∀ (evs : List NamedEvent), (∀ x ∈ evs, x.event_type = E) →
    ∀ (pats : Pats) (item : ConditionItem), E ∈ item.matched_events →
    evs.foldl (fun (acc : Pats × ConditionItem) x => matchOne acc.1 x acc.2) (pats, item)
      = (pats, item) := by
  intro evs
  induction evs with
  | nil => intro _ pats item _; rfl
  | cons x rest ih =>
    intro hall pats item hmem
    simp only [List.foldl_cons]
    have hskip : matchOne pats x item = (pats, item) :=
      matchOne_skip pats x item (by rw [hall x (List.mem_cons_self x rest)]; exact hmem)
    rw [hskip]
    exact ih (fun y hy => hall y (List.mem_cons_of_mem x hy)) pats item hmem

/-- C2: matching is idempotent per (condition, event type).  First, a
stored condition that already matched the firing event type is skipped
entirely: the patterns map and the condition are left untouched.
Second, replaying any number of firings of the same event type E
against one stored condition increments event_after_count of any
pattern cell with type E at most once in total on behalf of that
condition (and not at all once E is in its matched_events list). -/
theorem patternTracker_match_idempotent :
    (∀ (pats : Pats) (ev : NamedEvent) (item : ConditionItem),
       ev.event_type ∈ item.matched_events → matchOne pats ev item = (pats, item)) ∧
    (∀ (E : String) (evs : List NamedEvent), (∀ x ∈ evs, x.event_type = E) →
       ∀ (pats : Pats) (item : ConditionItem) (k : String),
         eacAt ((evs.foldl (fun (acc : Pats × ConditionItem) x => matchOne acc.1 x acc.2)
             (pats, item)).1) k E
           ≤ eacAt pats k E + (if E ∈ item.matched_events then 0 else 1)) := by
  refine ⟨matchOne_skip, ?_⟩
  intro E evs
  induction evs with
  | nil =>
    intro _ pats item k
    simp only [List.foldl_nil]
    split_ifs <;> simp
  | cons x rest ih =>
    intro hall pats item k
    have hx : x.event_type = E := hall x (List.mem_cons_self x rest)
    simp only [List.foldl_cons]
    rcases matchOne_cases pats x item with heq | ⟨hnm, hm2, hbound⟩
    · rw [heq]
      exact ih (fun y hy => hall y (List.mem_cons_of_mem x hy)) pats item k
    · have hmem' : E ∈ (matchOne pats x item).2.matched_events := by
        rw [hm2, ← hx]
        exact List.mem_append_right _ (List.mem_singleton_self _)
      have hstuck := matchFold_stuck E rest
        (fun y hy => hall y (List.mem_cons_of_mem x hy))
        (matchOne pats x item).1 (matchOne pats x item).2 hmem'
      rw [show ((matchOne pats x item).1, (matchOne pats x item).2)
          = matchOne pats x item from rfl] at hstuck
      rw [hstuck]
      have hb := hbound k E
      rw [if_neg (hx ▸ hnm)]
      split_ifs at hb <;> omega

def wPats0 : Pats := fun _ _ => Option.none

def wEv : NamedEvent := ⟨100, "btc_pump_1h", "medium", Option.none⟩

def wItemMatched : ConditionItem := ⟨wCond, 0, ["btc_pump_1h"]⟩

theorem patternTracker_match_idempotent_witness :
    matchOne wPats0 wEv wItemMatched = (wPats0, wItemMatched) ∧
    eacAt (([wEv].foldl (fun (acc : Pats × ConditionItem) x => matchOne acc.1 x acc.2)
        (wPats0, wItemMatched)).1) "L3_crypto_earthquake" "btc_pump_1h"
      ≤ eacAt wPats0 "L3_crypto_earthquake" "btc_pump_1h"
        + (if "btc_pump_1h" ∈ wItemMatched.matched_events then 0 else 1) :=
  ⟨patternTracker_match_idempotent.1 wPats0 wEv wItemMatched (by decide),
   patternTracker_match_idempotent.2 "btc_pump_1h" [wEv] (by decide)
     wPats0 wItemMatched "L3_crypto_earthquake"⟩

end PatternTracker

/-- A detected anomaly (src/core/types.py, dataclass AnomalyEvent).
The metadata dict is modelled by the only entry the analyzers read:
metadata_severity = some s when metadata is truthy and carries a
"severity" key with value s, Option.none otherwise. -/
structure AnomalyEvent where
  timestamp : ℚ
  parameter : String
  value : ℚ
  mean : ℚ
  std : ℚ
  z_score : ℚ
  sensor_source : String
  metadata_severity : Option String
deriving DecidableEq, Repr

namespace ClusterDetector

/-- A cluster of anomalies (cluster_detector.py, dataclass
AnomalyCluster).  precursor_event is omitted: it is always None in the
current code. -/
structure AnomalyCluster where
  level : Nat
  anomalies : List AnomalyEvent
  timestamp : ℚ
  probability : ℚ
  description : String
  is_precursor : Bool
deriving DecidableEq, Repr

/-- Append to a deque with maxlen: drop the oldest entry when full. -/
def dequeAppend {α : Type} (cap : Nat) (l : List α) (x : α) : List α :=
  if cap ≤ l.length then l.tail ++ [x] else l ++ [x]

/-- ClusterDetector state: the two bounded deques of (anomaly,
timestamp) entries plus the configured windows. -/
structure ClusterState where
  cluster_window : ℚ
  precursor_window : ℚ
  recent_anomalies : List (AnomalyEvent × ℚ)
  precursor_candidates : List (AnomalyEvent × ℚ)
deriving Repr

/-- ClusterDetector.__init__ with the given windows (defaults 30 and
3600 seconds). -/
def ClusterState.init (cluster_window precursor_window : ℚ) : ClusterState :=
  ⟨cluster_window, precursor_window, [], []⟩

/-- ClusterDetector._calculate_cluster_probability: a qualitative
probability keyed on the number of distinct sensor sources. -/
def calculateClusterProbability (anomalies : List AnomalyEvent) : ℚ :=
  let n := (anomalies.map (fun a => a.sensor_source)).dedup.length
  if n = 2 then 1/10
  else if n = 3 then 1/20
  else if n = 4 then 1/100
  else 1/1000

/-- ClusterDetector._detect_cluster.  current_time stands for
time.time() at the moment of the call. -/
def detectCluster (st : ClusterState) (current_time : ℚ) (new_anomaly : AnomalyEvent) :
    Option AnomalyCluster :=
  let recent := st.recent_anomalies.filter (fun a => current_time - a.2 < st.cluster_window)
  if recent.length < 1 then
    Option.none
  else
    let sources := (recent.map (fun a => a.1.sensor_source)).dedup
    let level := sources.length
    if level = 1 then
      some ⟨1, [new_anomaly], new_anomaly.timestamp, 1, "Одиночная аномалия", false⟩
    else
      let anomaly_list := recent.map (fun a => a.1)
      let probability := calculateClusterProbability anomaly_list
      if level = 2 then
        some ⟨2, anomaly_list, new_anomaly.timestamp, probability, "Двойная корреляция", false⟩
      else if level = 3 then
        some ⟨3, anomaly_list, new_anomaly.timestamp, probability, "Тройной кластер", false⟩
      else if level = 4 then
        some ⟨4, anomaly_list, new_anomaly.timestamp, probability, "Системное возмущение", false⟩
      else if 5 ≤ level then
        some ⟨5, anomaly_list, new_anomaly.timestamp, probability, "Критическая синхронность", false⟩
      else
        Option.none

/-- ClusterDetector._check_precursor: stores the candidate and trims
the deque but never emits a Level 5 cluster (precursor detection is
disabled in the source). -/
def checkPrecursor (st : ClusterState) (current_time : ℚ) (anomaly : AnomalyEvent) :
    ClusterState × Option AnomalyCluster :=
  let cands := (dequeAppend 100 st.precursor_candidates (anomaly, anomaly.timestamp)).filter
    (fun p => current_time - st.precursor_window < p.2)
  ({ st with precursor_candidates := cands }, Option.none)

/-- ClusterDetector.add_anomaly.  The several time.time() calls inside
one invocation are idealised as a single instant current_time.  The
Python test "not cluster or cluster.level < 3" is cluster.elim true
(level < 3); "if precursor: return precursor" is the isSome test. -/
def add_anomaly (st : ClusterState) (current_time : ℚ) (anomaly : AnomalyEvent) :
    ClusterState × Option AnomalyCluster :=
  let recents := (dequeAppend 1000 st.recent_anomalies (anomaly, anomaly.timestamp)).filter
    (fun a => current_time - st.cluster_window * 2 < a.2)
  let st1 := { st with recent_anomalies := recents }
  let cluster := detectCluster st1 current_time anomaly
  if cluster.elim true (fun c => c.level < 3) then
    let r := checkPrecursor st1 current_time anomaly
    if r.2.isSome then (r.1, r.2) else (r.1, cluster)
  else
    (st1, cluster)

/-- The number of distinct sensor sources among deque entries that lie
inside the cluster window at the time of an add_anomaly call (after
the new anomaly is appended and the deque is trimmed). -/
def windowSources (st : ClusterState) (current_time : ℚ) (a : AnomalyEvent) : Nat :=
  ((((dequeAppend 1000 st.recent_anomalies (a, a.timestamp)).filter
      (fun x => current_time - st.cluster_window * 2 < x.2)).filter
      (fun x => current_time - x.2 < st.cluster_window)).map
      (fun x => x.1.sensor_source)).dedup.length

/-- The distinct-source count _detect_cluster computes from the deque
entries inside the cluster window. -/
def detectSources (st : ClusterState) (current_time : ℚ) : Nat :=
  ((st.recent_anomalies.filter (fun a => current_time - a.2 < st.cluster_window)).map
    (fun a => a.1.sensor_source)).dedup.length

/-- The level-to-probability table of the specification: level 1
carries 1.0, then 0.10 / 0.05 / 0.01 / 0.001 for 2 / 3 / 4 / 5-or-more
distinct sources. -/
def qualitativeProbability (k : Nat) : ℚ :=
  if k = 1 then 1
  else if k = 2 then 1/10
  else if k = 3 then 1/20
  else if k = 4 then 1/100
  else 1/1000

theorem add_anomaly_snd (st : ClusterState) (current_time : ℚ) (a : AnomalyEvent) :
    (add_anomaly st current_time a).2 =
      detectCluster { st with recent_anomalies := (dequeAppend 1000 st.recent_anomalies (a, a.timestamp)).filter (fun x => current_time - st.cluster_window * 2 < x.2) } current_time a := by
  simp only [add_anomaly, checkPrecursor]
  split <;> simp

theorem calculateClusterProbability_eq (l : List (AnomalyEvent × ℚ))
    (hk : 2 ≤ (l.map (fun x => x.1.sensor_source)).dedup.length) :
    calculateClusterProbability (l.map (fun x => x.1)) =
      qualitativeProbability ((l.map (fun x => x.1.sensor_source)).dedup.length) := by
  unfold calculateClusterProbability qualitativeProbability
  rw [List.map_map]
  rw [show (List.map ((fun a => a.sensor_source) ∘ fun x => (x.1 : AnomalyEvent)) l)
      = l.map (fun x => x.1.sensor_source) from rfl]
  set n := (l.map (fun x => x.1.sensor_source)).dedup.length with hn
  by_cases h2 : n = 2
  · simp [h2]
  · by_cases h3 : n = 3
    · simp [h2, h3]
    · by_cases h4 : n = 4
      · simp [h2, h3, h4]
      · have h1 : ¬n = 1 := by omega
        simp [h1, h2, h3, h4]

theorem detectCluster_spec (st : ClusterState) (current_time : ℚ) (a : AnomalyEvent)
    (c : AnomalyCluster) (hc : detectCluster st current_time a = some c) :
    c.level = min (detectSources st current_time) 5 ∧
    c.probability = qualitativeProbability (detectSources st current_time) ∧
    (detectSources st current_time = 1 → c.level = 1 ∧ c.probability = 1) := by
  simp only [detectCluster] at hc
  rw [show (((st.recent_anomalies.filter
      (fun x => current_time - x.2 < st.cluster_window)).map
      (fun x => x.1.sensor_source)).dedup.length) = detectSources st current_time from rfl] at hc
  split_ifs at hc with h0 h1 h2 h3 h4 h5
  · injection hc with hc
    subst hc
    refine ⟨show (1 : Nat) = min (detectSources st current_time) 5 by omega, ?_,
      fun hk => ⟨rfl, rfl⟩⟩
    show (1 : ℚ) = qualitativeProbability (detectSources st current_time)
    rw [h1]
    rfl
  · injection hc with hc
    subst hc
    refine ⟨show (2 : Nat) = min (detectSources st current_time) 5 by omega, ?_,
      fun hk => absurd hk (by omega)⟩
    show calculateClusterProbability _ = qualitativeProbability (detectSources st current_time)
    exact calculateClusterProbability_eq _ (show 2 ≤ detectSources st current_time by omega)
  · injection hc with hc
    subst hc
    refine ⟨show (3 : Nat) = min (detectSources st current_time) 5 by omega, ?_,
      fun hk => absurd hk (by omega)⟩
    show calculateClusterProbability _ = qualitativeProbability (detectSources st current_time)
    exact calculateClusterProbability_eq _ (show 2 ≤ detectSources st current_time by omega)
  · injection hc with hc
    subst hc
    refine ⟨show (4 : Nat) = min (detectSources st current_time) 5 by omega, ?_,
      fun hk => absurd hk (by omega)⟩
    show calculateClusterProbability _ = qualitativeProbability (detectSources st current_time)
    exact calculateClusterProbability_eq _ (show 2 ≤ detectSources st current_time by omega)
  · injection hc with hc
    subst hc
    refine ⟨show (5 : Nat) = min (detectSources st current_time) 5 by omega, ?_,
      fun hk => absurd hk (by omega)⟩
    show calculateClusterProbability _ = qualitativeProbability (detectSources st current_time)
    exact calculateClusterProbability_eq _ (show 2 ≤ detectSources st current_time by omega)

/-- C3: whenever the cluster detector emits a cluster, its level is
min(k, 5) where k is the number of distinct sensor sources among the
in-window anomalies, a single distinct source always yields level 1
with probability 1.0 regardless of the number of anomalies in the
window, and the probability is the qualitative table 2 to 0.10, 3 to
0.05, 4 to 0.01, 5 or more to 0.001. -/
theorem clusterDetector_level_probability (st : ClusterState) (current_time : ℚ)
    (a : AnomalyEvent) (c : AnomalyCluster)
    (hc : (add_anomaly st current_time a).2 = some c) :
    c.level = min (windowSources st current_time a) 5 ∧
    c.probability = qualitativeProbability (windowSources st current_time a) ∧
    (windowSources st current_time a = 1 → c.level = 1 ∧ c.probability = 1) := by
  rw [add_anomaly_snd] at hc
  exact detectCluster_spec _ current_time a c hc

def wClusterState : ClusterState := ClusterState.init 30 3600

def wClusterAnom : AnomalyEvent :=
  ⟨5, "crypto.btcusdt.price", 3, 0, 1, 10, "crypto", some "high"⟩

def wEmittedCluster : AnomalyCluster :=
  ⟨1, [wClusterAnom], 5, 1, "Одиночная аномалия", false⟩

theorem clusterDetector_level_probability_witness :
    (add_anomaly wClusterState 10 wClusterAnom).2 = some wEmittedCluster ∧
    wEmittedCluster.level = 1 ∧ wEmittedCluster.probability = 1 := by
  have hc : (add_anomaly wClusterState 10 wClusterAnom).2 = some wEmittedCluster := by
    norm_num [add_anomaly, detectCluster, checkPrecursor, dequeAppend, wClusterState,
      wClusterAnom, wEmittedCluster, ClusterState.init]
  have hk : windowSources wClusterState 10 wClusterAnom = 1 := by
    norm_num [windowSources, dequeAppend, wClusterState, wClusterAnom, ClusterState.init]
  have h := clusterDetector_level_probability wClusterState 10 wClusterAnom wEmittedCluster hc
  exact ⟨hc, (h.2.2 hk).1, (h.2.2 hk).2⟩

end ClusterDetector

/-- Round-half-even of a rational (Python round() on exact values; the
binary floating-point representation is idealised as exact). -/
def roundHalfEven (x : ℚ) : ℤ :=
  if x - ⌊x⌋ < 1/2 then ⌊x⌋
  else if 1/2 < x - ⌊x⌋ then ⌊x⌋ + 1
  else if ⌊x⌋ % 2 = 0 then ⌊x⌋ else ⌊x⌋ + 1

/-- Python round(x, d). -/
def pyRound (x : ℚ) (d : ℕ) : ℚ :=
  (roundHalfEven (x * 10 ^ d) : ℚ) / 10 ^ d

theorem roundHalfEven_nonneg (x : ℚ) (h : 0 ≤ x) : 0 ≤ roundHalfEven x := by
  unfold roundHalfEven
  have hf : (0 : ℤ) ≤ ⌊x⌋ := Int.le_floor.mpr (by exact_mod_cast h)
  split_ifs <;> omega

theorem roundHalfEven_le (x : ℚ) (B : ℤ) (h : x ≤ B) : roundHalfEven x ≤ B := by
  unfold roundHalfEven
  have hf : ⌊x⌋ ≤ B := by
    have := Int.floor_le_floor h
    simpa using this
  rcases eq_or_lt_of_le hf with heq | hlt
  · have hr : x - ⌊x⌋ ≤ 0 := by
      have := Int.floor_le x
      have hxB : x ≤ (⌊x⌋ : ℚ) := by rw [heq]; exact_mod_cast h
      linarith
    split_ifs <;> first | omega | linarith
  · split_ifs <;> omega

theorem pyRound_nonneg (x : ℚ) (d : ℕ) (h : 0 ≤ x) : 0 ≤ pyRound x d := by
  unfold pyRound
  have := roundHalfEven_nonneg (x * 10 ^ d) (by positivity)
  positivity

theorem pyRound_le (x : ℚ) (d : ℕ) (B : ℤ) (h : x ≤ B) : pyRound x d ≤ B := by
  unfold pyRound
  have hb : x * 10 ^ d ≤ ((B * 10 ^ d : ℤ) : ℚ) := by
    push_cast
    have hp : (0 : ℚ) < 10 ^ d := by positivity
    nlinarith
  have := roundHalfEven_le (x * 10 ^ d) (B * 10 ^ d) hb
  have hcast : ((roundHalfEven (x * 10 ^ d) : ℤ) : ℚ) ≤ ((B * 10 ^ d : ℤ) : ℚ) := by
    exact_mod_cast this
  push_cast at hcast
  have hp : (0 : ℚ) < 10 ^ d := by positivity
  rw [div_le_iff hp]
  linarith

namespace AnomalyIndex

/-- A snapshot of the anomaly index (anomaly_index.py, dataclass
AnomalyIndexSnapshot). -/
structure AnomalyIndexSnapshot where
  timestamp : ℚ
  index : ℚ
  breakdown : List (String × ℚ)
  baseline_ratio : ℚ
  status : String
  active_anomalies : List AnomalyEvent
deriving DecidableEq, Repr

/-- AnomalyIndexCalculator state: the snapshot history deque (maxlen
10000), the baseline cache dict (Option.none = empty dict) and the
last baseline update instant. -/
structure CalcState where
  baseline_window : ℚ
  history : List AnomalyIndexSnapshot
  baseline_cache : Option ℚ
  last_baseline_update : ℚ
deriving Repr

/-- AnomalyIndexCalculator.__init__ (default 24 hours). -/
def CalcState.init (baseline_window_hours : ℚ) : CalcState :=
  ⟨baseline_window_hours * 3600, [], Option.none, 0⟩

/-- Append to a deque with maxlen: drop the oldest entry when full. -/
def dequeAppend {α : Type} (cap : Nat) (l : List α) (x : α) : List α :=
  if cap ≤ l.length then l.tail ++ [x] else l ++ [x]

/-- The SENSOR_WEIGHTS class dict (all weights 1.0, not yet
calibrated). -/
def SENSOR_WEIGHTS : List (String × ℚ) :=
  [("quantum_rng", 1), ("earthquake", 1), ("crypto", 1), ("space_weather", 1),
   ("blockchain", 1), ("weather", 1), ("news", 1)]

/-- SENSOR_WEIGHTS.get(sensor, 1.0). -/
def weightOf (s : String) : ℚ :=
  ((SENSOR_WEIGHTS.lookup s).getD 1)

/-- Severity classification inside _calculate_breakdown: metadata
severity wins, otherwise z-score bands. -/
def anomalySeverity (a : AnomalyEvent) : String :=
  match a.metadata_severity with
  | some s => s
  | Option.none =>
    if 5 < |a.z_score| then "high"
    else if 3 < |a.z_score| then "medium"
    else "low"

/-- severity_map.get(severity, 30). -/
def severityScore (s : String) : ℚ :=
  if s = "low" then 10
  else if s = "medium" then 30
  else if s = "high" then 50
  else if s = "critical" then 100
  else 30

/-- AnomalyIndexCalculator._calculate_breakdown: group anomalies by
sensor in first-appearance order; per sensor sum the severity scores,
capped at 100. -/
def calculateBreakdown (anomalies : List AnomalyEvent) : List (String × ℚ) :=
  ((anomalies.map (fun a => a.sensor_source)).dedup).map
    (fun s => (s, pymin 100
      (((anomalies.filter (fun a => a.sensor_source = s)).map
        (fun a => severityScore (anomalySeverity a))).sum)))

/-- AnomalyIndexCalculator._update_baseline. -/
def updateBaseline (st : CalcState) (current_time : ℚ) : CalcState :=
  let recent := st.history.filter (fun s => current_time - st.baseline_window < s.timestamp)
  let v : ℚ :=
    if recent.length < 10 then 15
    else (recent.map (fun s => s.index)).sum / recent.length
  { st with baseline_cache := some v, last_baseline_update := current_time }

/-- AnomalyIndexCalculator._get_baseline_index. -/
def getBaselineIndex (st : CalcState) : ℚ :=
  st.baseline_cache.getD 15

/-- AnomalyIndexCalculator._determine_status. -/
def determineStatus (index baseline_ratio : ℚ) : String :=
  if 80 ≤ index ∨ 3 ≤ baseline_ratio then "critical"
  else if 60 ≤ index ∨ 2 ≤ baseline_ratio then "high"
  else if 40 ≤ index ∨ 3/2 ≤ baseline_ratio then "elevated"
  else "normal"

/-- The index before rounding, as computed in calculate: the weighted
breakdown total normalised against the maximum possible score. -/
def rawIndex (anomalies : List AnomalyEvent) : ℚ :=
  pymin 100
    ((((calculateBreakdown anomalies).map (fun p => p.2 * weightOf p.1)).sum
      / ((SENSOR_WEIGHTS.map (fun p => p.2)).sum * 100)) * 100)

/-- The baseline ratio before rounding, as computed in calculate
(after a baseline refresh when one is due). -/
def rawRatio (st : CalcState) (current_time : ℚ) (anomalies : List AnomalyEvent) : ℚ :=
  let st :=
    if 3600 < current_time - st.last_baseline_update then updateBaseline st current_time
    else st
  let baseline := getBaselineIndex st
  if 0 < baseline then rawIndex anomalies / baseline else 1

/-- AnomalyIndexCalculator.calculate.  current_time stands for
time.time() at the call. -/
def calculate (st : CalcState) (current_time : ℚ) (recent_anomalies : List AnomalyEvent) :
    CalcState × AnomalyIndexSnapshot :=
  let st :=
    if 3600 < current_time - st.last_baseline_update then updateBaseline st current_time
    else st
  let breakdown := calculateBreakdown recent_anomalies
  let total_score := (breakdown.map (fun p => p.2 * weightOf p.1)).sum
  let max_possible := (SENSOR_WEIGHTS.map (fun p => p.2)).sum * 100
  let index := pymin 100 (total_score / max_possible * 100)
  let baseline := getBaselineIndex st
  let baseline_ratio := if 0 < baseline then index / baseline else 1
  let status := determineStatus index baseline_ratio
  let snapshot : AnomalyIndexSnapshot :=
    ⟨current_time, pyRound index 1, breakdown.map (fun p => (p.1, pyRound p.2 1)),
     pyRound baseline_ratio 2, status, recent_anomalies⟩
  ({ st with history := dequeAppend 10000 st.history snapshot }, snapshot)

/-- A sequence of calculate calls (each with its wall-clock time and
anomaly list), returning the final state. -/
def caRun (st : CalcState) : List (ℚ × List AnomalyEvent) → CalcState
  | [] => st
  | (t, as) :: rest => caRun (calculate st t as).1 rest

theorem weightOf_eq_one (s : String) : weightOf s = 1 := by
  unfold weightOf SENSOR_WEIGHTS
  simp only [List.lookup]
  repeat' split
  all_goals rfl

theorem calculate_snapshot_status (st : CalcState) (t : ℚ) (as : List AnomalyEvent) :
    (calculate st t as).2.status = determineStatus (rawIndex as) (rawRatio st t as) := rfl

theorem calculate_snapshot_index (st : CalcState) (t : ℚ) (as : List AnomalyEvent) :
    (calculate st t as).2.index = pyRound (rawIndex as) 1 := rfl

theorem determineStatus_iff (i r : ℚ) :
    (determineStatus i r = "normal" ↔ i < 40 ∧ r < 3/2) ∧
    (determineStatus i r = "elevated" ↔ (40 ≤ i ∨ 3/2 ≤ r) ∧ i < 60 ∧ r < 2) ∧
    (determineStatus i r = "high" ↔ (60 ≤ i ∨ 2 ≤ r) ∧ i < 80 ∧ r < 3) ∧
    (determineStatus i r = "critical" ↔ (80 ≤ i ∨ 3 ≤ r)) := by
  unfold determineStatus
  split_ifs with h1 h2 h3
  · exact ⟨iff_of_false (by simp) (fun hx => by rcases h1 with h | h <;> rcases hx with ⟨a, b⟩ <;> linarith),
      iff_of_false (by simp) (fun hx => by rcases h1 with h | h <;> rcases hx with ⟨c, a, b⟩ <;> linarith),
      iff_of_false (by simp) (fun hx => by rcases h1 with h | h <;> rcases hx with ⟨c, a, b⟩ <;> linarith),
      iff_of_true rfl h1⟩
  · push_neg at h1
    exact ⟨iff_of_false (by simp) (fun hx => by rcases h2 with h | h <;> rcases hx with ⟨a, b⟩ <;> linarith),
      iff_of_false (by simp) (fun hx => by rcases h2 with h | h <;> rcases hx with ⟨c, a, b⟩ <;> linarith),
      iff_of_true rfl ⟨h2, h1.1, h1.2⟩,
      iff_of_false (by simp) (fun hx => by rcases hx with h | h <;> linarith [h1.1, h1.2])⟩
  · push_neg at h1 h2
    exact ⟨iff_of_false (by simp) (fun hx => by rcases h3 with h | h <;> rcases hx with ⟨a, b⟩ <;> linarith),
      iff_of_true rfl ⟨h3, h2.1, h2.2⟩,
      iff_of_false (by simp) (fun hx => by rcases hx with ⟨h, a, b⟩ <;> rcases h with h | h <;> linarith [h2.1, h2.2]),
      iff_of_false (by simp) (fun hx => by rcases hx with h | h <;> linarith [h1.1, h1.2])⟩
  · push_neg at h1 h2 h3
    exact ⟨iff_of_true rfl h3,
      iff_of_false (by simp) (fun hx => by rcases hx with ⟨h, a, b⟩ <;> rcases h with h | h <;> linarith [h3.1, h3.2]),
      iff_of_false (by simp) (fun hx => by rcases hx with ⟨h, a, b⟩ <;> rcases h with h | h <;> linarith [h2.1, h2.2]),
      iff_of_false (by simp) (fun hx => by rcases hx with h | h <;> linarith [h1.1, h1.2])⟩

theorem severityScore_nonneg (s : String) : 0 ≤ severityScore s := by
  unfold severityScore
  split_ifs <;> norm_num

theorem breakdown_nonneg (as : List AnomalyEvent) (p : String × ℚ)
    (hp : p ∈ calculateBreakdown as) : 0 ≤ p.2 := by
  unfold calculateBreakdown at hp
  obtain ⟨s, hs, rfl⟩ := List.mem_map.mp hp
  unfold pymin
  split
  · exact List.sum_nonneg (fun x hx => by
      obtain ⟨a, ha, rfl⟩ := List.mem_map.mp hx
      exact severityScore_nonneg _)
  · norm_num

theorem rawIndex_nonneg (as : List AnomalyEvent) : 0 ≤ rawIndex as := by
  have htot : 0 ≤ ((calculateBreakdown as).map (fun p => p.2 * weightOf p.1)).sum :=
    List.sum_nonneg (fun x hx => by
      obtain ⟨p, hp, rfl⟩ := List.mem_map.mp hx
      rw [weightOf_eq_one]
      simpa using breakdown_nonneg as p hp)
  unfold rawIndex pymin
  split
  · apply mul_nonneg (div_nonneg htot (by norm_num [SENSOR_WEIGHTS])) (by norm_num)
  · norm_num

theorem rawIndex_le_100 (as : List AnomalyEvent) : rawIndex as ≤ 100 := by
  unfold rawIndex pymin
  split_ifs with h
  · linarith
  · exact le_refl 100

theorem calculate_index_bounds (st : CalcState) (t : ℚ) (as : List AnomalyEvent) :
    0 ≤ (calculate st t as).2.index ∧ (calculate st t as).2.index ≤ 100 := by
  rw [calculate_snapshot_index]
  refine ⟨pyRound_nonneg _ _ (rawIndex_nonneg as), ?_⟩
  have h := pyRound_le (rawIndex as) 1 100 (by exact_mod_cast rawIndex_le_100 as)
  exact_mod_cast h

/-- An anomaly carrying metadata severity "critical" from the crypto
sensor. -/
def aCrit : AnomalyEvent := ⟨0, "p", 0, 0, 0, 0, "crypto", some "critical"⟩

/-- An anomaly carrying metadata severity "high" from the news sensor. -/
def aHigh : AnomalyEvent := ⟨0, "p", 0, 0, 0, 0, "news", some "high"⟩

/-- The snapshot produced by a calculate call at time t with [aCrit]
while the cached baseline is the default 15: raw index 100/7, stored
index round(100/7, 1) = 14.3, ratio (100/7)/15 stored as 0.95. -/
def snapA (t : ℚ) : AnomalyIndexSnapshot :=
  ⟨t, 143/10, [("crypto", 100)], 19/20, "normal", [aCrit]⟩

/-- A calculator state with baseline cache 15 last updated at 3601. -/
def stA (l : List AnomalyIndexSnapshot) : CalcState := ⟨86400, l, some 15, 3601⟩

theorem step0 : calculate (CalcState.init 24) 3601 [aCrit] = (stA [snapA 3601], snapA 3601) := by
  simp [calculate, CalcState.init, stA, updateBaseline, calculateBreakdown, anomalySeverity,
    severityScore, pymin, weightOf_eq_one, SENSOR_WEIGHTS, getBaselineIndex, determineStatus,
    pyRound, roundHalfEven, dequeAppend, snapA, aCrit, List.dedup, beq_iff_eq]
  norm_num [Int.fract, Int.floor_eq_iff]

theorem stepA (l : List AnomalyIndexSnapshot) (t : ℚ) (h2 : ¬ 3600 < t - 3601)
    (h3 : ¬ 10000 ≤ l.length) :
    calculate (stA l) t [aCrit] = (stA (l ++ [snapA t]), snapA t) := by
  simp [calculate, stA, h2, h3, calculateBreakdown, anomalySeverity,
    severityScore, pymin, weightOf_eq_one, SENSOR_WEIGHTS, getBaselineIndex, determineStatus,
    pyRound, roundHalfEven, dequeAppend, snapA, aCrit, List.dedup, beq_iff_eq]
  norm_num [Int.fract, Int.floor_eq_iff]

/-- Ten calculate calls, one per second, each seeing one critical crypto
anomaly; all fall inside the hour after the first baseline refresh. -/
def cexCalls : List (ℚ × List AnomalyEvent) :=
  [(3601, [aCrit]), (3602, [aCrit]), (3603, [aCrit]), (3604, [aCrit]), (3605, [aCrit]),
   (3606, [aCrit]), (3607, [aCrit]), (3608, [aCrit]), (3609, [aCrit]), (3610, [aCrit])]

def snaps10 : List AnomalyIndexSnapshot :=
  [snapA 3601, snapA 3602, snapA 3603, snapA 3604, snapA 3605,
   snapA 3606, snapA 3607, snapA 3608, snapA 3609, snapA 3610]

theorem cexRun : caRun (CalcState.init 24) cexCalls = stA snaps10 := by
  have e1 := step0
  have e2 := stepA [snapA 3601] 3602 (by norm_num) (by norm_num)
  have e3 := stepA [snapA 3601, snapA 3602] 3603 (by norm_num) (by norm_num)
  have e4 := stepA [snapA 3601, snapA 3602, snapA 3603] 3604 (by norm_num) (by norm_num)
  have e5 := stepA [snapA 3601, snapA 3602, snapA 3603, snapA 3604] 3605 (by norm_num) (by norm_num)
  have e6 := stepA [snapA 3601, snapA 3602, snapA 3603, snapA 3604, snapA 3605] 3606 (by norm_num) (by norm_num)
  have e7 := stepA [snapA 3601, snapA 3602, snapA 3603, snapA 3604, snapA 3605, snapA 3606] 3607 (by norm_num) (by norm_num)
  have e8 := stepA [snapA 3601, snapA 3602, snapA 3603, snapA 3604, snapA 3605, snapA 3606, snapA 3607] 3608 (by norm_num) (by norm_num)
  have e9 := stepA [snapA 3601, snapA 3602, snapA 3603, snapA 3604, snapA 3605, snapA 3606, snapA 3607, snapA 3608] 3609 (by norm_num) (by norm_num)
  have e10 := stepA [snapA 3601, snapA 3602, snapA 3603, snapA 3604, snapA 3605, snapA 3606, snapA 3607, snapA 3608, snapA 3609] 3610 (by norm_num) (by norm_num)
  simp only [cexCalls, caRun, e1, e2, e3, e4, e5, e6, e7, e8, e9, e10, List.append_eq,
    List.cons_append, List.nil_append, snaps10]

/-- The snapshot of the 11th call: raw index 150/7 (≈21.4), baseline
14.3 (mean of ten stored 14.3 indices), raw ratio 1500/1001 ≈ 1.4985
(status "normal") but stored baseline_ratio round(1500/1001, 2) = 1.5. -/
def snapFin : AnomalyIndexSnapshot :=
  ⟨7211, 107/5, [("crypto", 100), ("news", 50)], 3/2, "normal", [aCrit, aHigh]⟩

theorem stepFin : (calculate (stA snaps10) 7211 [aCrit, aHigh]).2 = snapFin := by
  simp [calculate, stA, snaps10, updateBaseline, calculateBreakdown, anomalySeverity,
    severityScore, pymin, weightOf_eq_one, SENSOR_WEIGHTS, getBaselineIndex, determineStatus,
    pyRound, roundHalfEven, dequeAppend, snapFin, snapA, aCrit, aHigh, List.dedup, beq_iff_eq]
  norm_num [Int.fract, Int.floor_eq_iff]

/-- **C4 (counterexample).** The claim reads the status bands on the
snapshot's stored (rounded) fields.  Concrete run: ten calculate calls
at t = 3601..3610 each seeing one critical crypto anomaly (stored index
14.3 each), then a call at t = 7211 (baseline refresh: mean 14.3)
seeing a critical crypto and a high news anomaly.  The raw ratio is
1500/1001 < 1.5, so the status is "normal", but the stored
baseline_ratio rounds to exactly 1.50, contradicting "status is
normal only if baselineRatio < 1.5" for the snapshot's fields. -/
theorem anomalyIndex_status_bands_cex :
    (calculate (caRun (CalcState.init 24) cexCalls) 7211 [aCrit, aHigh]).2.status = "normal" ∧
    3/2 ≤ (calculate (caRun (CalcState.init 24) cexCalls) 7211 [aCrit, aHigh]).2.baseline_ratio := by
  rw [cexRun, stepFin]
  constructor
  · rfl
  · norm_num [snapFin]

/-- **C4 (amended).** Every snapshot produced by calculate has its
(stored, rounded) index in [0, 100], and its status is determined by
the band thresholds 40/60/80 on the index and 1.5/2.0/3.0 on the
baseline ratio — exactly as claimed — provided the bands are read on
the pre-rounding index and baseline ratio that calculate feeds to
_determine_status (rawIndex / rawRatio), not on the rounded values
stored in the snapshot. -/
theorem anomalyIndex_status_bands (st : CalcState) (t : ℚ) (as : List AnomalyEvent) :
    (0 ≤ (calculate st t as).2.index ∧ (calculate st t as).2.index ≤ 100) ∧
    ((calculate st t as).2.status = "normal" ↔
      rawIndex as < 40 ∧ rawRatio st t as < 3/2) ∧
    ((calculate st t as).2.status = "elevated" ↔
      (40 ≤ rawIndex as ∨ 3/2 ≤ rawRatio st t as) ∧ rawIndex as < 60 ∧ rawRatio st t as < 2) ∧
    ((calculate st t as).2.status = "high" ↔
      (60 ≤ rawIndex as ∨ 2 ≤ rawRatio st t as) ∧ rawIndex as < 80 ∧ rawRatio st t as < 3) ∧
    ((calculate st t as).2.status = "critical" ↔
      80 ≤ rawIndex as ∨ 3 ≤ rawRatio st t as) := by
  refine ⟨calculate_index_bounds st t as, ?_⟩
  rw [calculate_snapshot_status]
  exact determineStatus_iff (rawIndex as) (rawRatio st t as)

end AnomalyIndex

namespace ThresholdDetector

/-!  Shallow embedding of src/src/analyzers/online/threshold_detector.py
(ThresholdDetector) and the value-distribution logging side of
src/src/monitoring/calibration_tracker.py (CalibrationTracker).  The
tracker's two append-only JSONL files are modelled as in-memory lists
(value_log, check_log); the event-bus publication inside
_create_anomaly is outside this embedding (detector constructed without
a bus). -/

/-- Core matcher for the regex obtained from the glob pattern by
pattern.replace(".", "\x5c.").replace("*", ".*"), against a fixed end
position: a non-star pattern character (including '.', which the
translation escapes) matches itself, and each '*' becomes ".*",
matching any (possibly empty) run of non-newline characters.  This is
the semantics of the translated regex when every pattern character is
either '.', '*', or regex-ordinary (globSafe below); the '$' anchor's
tolerance for one trailing newline is added in matches_pattern. -/
def globMatch : List Char → List Char → Bool
  | [], k => k.isEmpty
  | p :: ps, [] => if p = '*' then globMatch ps [] else false
  | p :: ps, c :: ks =>
    if p = '*' then globMatch ps (c :: ks) || ((c != '\n') && globMatch (p :: ps) ks)
    else (p == c) && globMatch ps ks
termination_by p k => (k.length, p.length)

/-- The characters that keep a special regex meaning after the
translation ('.' is escaped and '*' becomes ".*"; every other pattern
character is passed to the regex verbatim). -/
def regexMeta : List Char :=
  ['.', '*', '+', '?', '^', '$', '(', ')', '[', ']', '\x7b', '\x7d', '|', '\\']

/-- Pattern characters on which the translated regex is literal: '.'
(escaped by the translation) and any regex-ordinary character.  All
rule patterns shipped in the source are built from globSafe characters
and '*'; a pattern containing another regex metacharacter would keep
that character's regex meaning and is outside this embedding. -/
def globSafe (c : Char) : Bool := c == '.' || !(regexMeta.contains c)

/-- Whether the key ends in a newline — the one position where the
regex '$' anchor accepts an extra character. -/
def endsWithNewline (k : List Char) : Bool :=
  (k.getLast?).elim false (fun c => c == '\n')

/-- ThresholdDetector._matches_pattern:
bool(re.match("^" + regex + "$", param_key)) for a pattern over
globSafe characters and '*'.  re.match anchored with '$' succeeds iff
the regex matches the whole key, or the whole key minus a single
trailing newline ('$' also matches just before a final newline). -/
def matches_pattern (param_key pattern : String) : Bool :=
  globMatch pattern.toList param_key.toList ||
    (endsWithNewline param_key.toList && globMatch pattern.toList param_key.toList.dropLast)

theorem globMatch_literal (p : List Char) (hp : '*' ∉ p) :
    ∀ k, (globMatch p k = true ↔ p = k) := by
  induction p with
  | nil =>
    intro k
    cases k <;> simp [globMatch]
  | cons c ps ih =>
    have hc : ¬ c = '*' := fun h => hp (by simp [h])
    have hps : '*' ∉ ps := fun h => hp (List.mem_cons_of_mem c h)
    intro k
    cases k with
    | nil => simp [globMatch, hc]
    | cons d ks => simp [globMatch, hc, ih hps ks]

theorem globSafe_not_star {a : List Char} (h : a.all globSafe = true) : '*' ∉ a := by
  intro hm
  have h2 := List.all_eq_true.mp h '*' hm
  exact absurd h2 (by decide)

theorem mem_of_getLast_eq : ∀ {k : List Char} {c : Char}, k.getLast? = some c → c ∈ k := by
  intro k
  induction k with
  | nil => intro c h; simp [List.getLast?] at h
  | cons a t ih =>
    intro c h
    cases t with
    | nil =>
      simp [List.getLast?] at h
      simp [h]
    | cons b t' =>
      rw [List.getLast?_cons_cons] at h
      exact List.mem_cons_of_mem a (ih h)

theorem endsWithNewline_eq_false {k : List Char} (hk : '\n' ∉ k) :
    endsWithNewline k = false := by
  unfold endsWithNewline
  cases hl : k.getLast? with
  | none => rfl
  | some c =>
    have hc : c ∈ k := mem_of_getLast_eq hl
    have hcn : ¬ c = '\n' := fun h => hk (h ▸ hc)
    simp [Option.elim, hcn]

theorem matches_pattern_eq_globMatch (key pattern : String) (hk : '\n' ∉ key.toList) :
    matches_pattern key pattern = globMatch pattern.toList key.toList := by
  unfold matches_pattern
  rw [endsWithNewline_eq_false hk]
  simp

/-- The trailing-newline acceptance of the '$' anchor, reproduced by
the embedding: the key "a\n" matches the star-free pattern "a", as
re.match does in the source. -/
theorem matches_pattern_trailing_newline :
    matches_pattern ⟨['a', '\n']⟩ ⟨['a']⟩ = true := by
  apply Bool.or_eq_true _ _ |>.mpr
  right
  apply Bool.and_eq_true _ _ |>.mpr
  constructor
  · rfl
  · exact (globMatch_literal ['a'] (by decide) ['a']).mpr rfl

theorem globMatch_star (b : List Char) (hb : '*' ∉ b) :
    ∀ k, (globMatch ('*' :: b) k = true ↔ ∃ s, k = s ++ b ∧ '\n' ∉ s) := by
  intro k
  induction k with
  | nil =>
    rw [show globMatch ('*' :: b) [] = globMatch b [] by simp [globMatch]]
    rw [globMatch_literal b hb []]
    constructor
    · intro h
      exact ⟨[], by simp [h.symm], by simp⟩
    · rintro ⟨s, hs, -⟩
      rcases List.append_eq_nil.mp hs.symm with ⟨-, h2⟩
      exact h2
  | cons c ks ih =>
    rw [show globMatch ('*' :: b) (c :: ks) =
        (globMatch b (c :: ks) || ((c != '\n') && globMatch ('*' :: b) ks)) by
      simp [globMatch]]
    constructor
    · intro h
      rcases Bool.or_eq_true _ _ |>.mp h with h1 | h2
      · exact ⟨[], by simpa using (globMatch_literal b hb _).mp h1 |>.symm, by simp⟩
      · rcases Bool.and_eq_true _ _ |>.mp h2 with ⟨hcn, hg⟩
        rcases ih.mp hg with ⟨s, rfl, hn⟩
        refine ⟨c :: s, rfl, ?_⟩
        simp only [List.mem_cons, not_or]
        exact ⟨fun h => by simp [h.symm] at hcn, hn⟩
    · rintro ⟨s, hs, hn⟩
      cases s with
      | nil =>
        apply Bool.or_eq_true _ _ |>.mpr
        left
        exact (globMatch_literal b hb _).mpr (by simpa using hs.symm)
      | cons c' s' =>
        rw [List.cons_append] at hs
        injection hs with h1 h2
        subst h1
        apply Bool.or_eq_true _ _ |>.mpr
        right
        apply Bool.and_eq_true _ _ |>.mpr
        refine ⟨?_, ih.mpr ⟨s', h2, fun h => hn (List.mem_cons_of_mem _ h)⟩⟩
        simpa using fun h => hn (by simp [h])

theorem globMatch_concat (a b : List Char) (ha : '*' ∉ a) (hb : '*' ∉ b) :
    ∀ k, (globMatch (a ++ '*' :: b) k = true ↔ ∃ s, k = a ++ s ++ b ∧ '\n' ∉ s) := by
  induction a with
  | nil =>
    intro k
    simpa using globMatch_star b hb k
  | cons c a' ih =>
    have hc : ¬ c = '*' := fun h => ha (by simp [h])
    have ha' : '*' ∉ a' := fun h => ha (List.mem_cons_of_mem c h)
    intro k
    cases k with
    | nil =>
      rw [List.cons_append]
      simp [globMatch, hc]
    | cons d ks =>
      rw [List.cons_append]
      rw [show globMatch (c :: (a' ++ '*' :: b)) (d :: ks) =
          ((c == d) && globMatch (a' ++ '*' :: b) ks) by simp [globMatch, hc]]
      simp only [Bool.and_eq_true, beq_iff_eq, ih ha' ks]
      constructor
      · rintro ⟨rfl, s, rfl, hn⟩
        exact ⟨s, by simp, hn⟩
      · rintro ⟨s, hs, hn⟩
        rw [List.cons_append, List.cons_append] at hs
        injection hs with h1 h2
        exact ⟨h1.symm, s, by simpa using h2, hn⟩

structure ThresholdRule where
  parameter_pattern : String
  min_change_percent : Option ℚ := Option.none
  max_absolute_value : Option ℚ := Option.none
  min_absolute_value : Option ℚ := Option.none
  trigger_when_above : Option ℚ := Option.none
  lookback_seconds : ℚ := 60
  description : String := ""
deriving DecidableEq, Repr

structure CheckRecord where
  threshold_name : String
  value : ℚ
  threshold_value : ℚ
  triggered : Bool
deriving DecidableEq, Repr

structure DetState where
  history : String → List (ℚ × ℚ)
  anomaly_count : Nat
  value_log : List (String × ℚ)
  check_log : List CheckRecord

def detInit : DetState := ⟨fun _ => [], 0, [], []⟩

def dequeAppend {α : Type} (cap : Nat) (l : List α) (x : α) : List α :=
  if cap ≤ l.length then l.tail ++ [x] else l ++ [x]

def zScoreMap (s : String) : ℚ :=
  if s = "low" then 5 else if s = "medium" then 7
  else if s = "high" then 10 else if s = "critical" then 15 else 10

def create_anomaly (param_key : String) (value timestamp : ℚ) (source : String)
    (severity : String) : AnomalyEvent :=
  ⟨timestamp, param_key, value, 0, 1, zScoreMap severity, source, some severity⟩

def calculate_severity (change_pct threshold : ℚ) : String :=
  if 3 ≤ change_pct / threshold then "critical"
  else if 2 ≤ change_pct / threshold then "high"
  else if 3/2 ≤ change_pct / threshold then "medium"
  else "low"

def absStage (name : String) (thr : Option ℚ) (trig : ℚ → ℚ → Bool) (param_key : String)
    (value timestamp : ℚ) (source : String) : List CheckRecord × Option AnomalyEvent :=
  thr.elim ([], Option.none) (fun t =>
    ([⟨param_key ++ "." ++ name, value, t, trig value t⟩],
     if trig value t then some (create_anomaly param_key value timestamp source "high")
     else Option.none))

def changeBody (param_key : String) (value : ℚ) (mcp : ℚ) (timestamp : ℚ) (source : String)
    (old_value : ℚ) : List CheckRecord × Option AnomalyEvent :=
  if old_value ≠ 0 then
    ([⟨param_key ++ ".change_pct", |(value - old_value) / old_value * 100|, mcp,
       mcp ≤ |(value - old_value) / old_value * 100|⟩],
     if mcp ≤ |(value - old_value) / old_value * 100| then
       some (create_anomaly param_key value timestamp source
         (calculate_severity (|(value - old_value) / old_value * 100|) mcp))
     else Option.none)
  else ([], Option.none)

def changeStage (param_key : String) (value : ℚ) (rule : ThresholdRule) (timestamp : ℚ)
    (source : String) (history : List (ℚ × ℚ)) : List CheckRecord × Option AnomalyEvent :=
  rule.min_change_percent.elim ([], Option.none) (fun mcp =>
    if 2 ≤ history.length then
      let old_values := history.filter (fun h => timestamp - rule.lookback_seconds ≤ h.1)
      if 2 ≤ old_values.length then
        changeBody param_key value mcp timestamp source (old_values.headI.2)
      else ([], Option.none)
    else ([], Option.none))

def check_rule (history0 : List (ℚ × ℚ)) (param_key : String) (value : ℚ)
    (rule : ThresholdRule) (timestamp : ℚ) (source : String) :
    List (ℚ × ℚ) × List CheckRecord × Option AnomalyEvent :=
  let history := dequeAppend 1000 history0 (timestamp, value)
  let s1 := absStage "max" rule.max_absolute_value (fun v t => t < v) param_key value timestamp source
  s1.2.elim
    (let s2 := absStage "min" rule.min_absolute_value (fun v t => v < t) param_key value timestamp source
     s2.2.elim
       (let s3 := absStage "trigger_above" rule.trigger_when_above (fun v t => t ≤ v) param_key value timestamp source
        s3.2.elim
          (let s4 := changeStage param_key value rule timestamp source history
           (history, s1.1 ++ s2.1 ++ s3.1 ++ s4.1, s4.2))
          (fun a => (history, s1.1 ++ s2.1 ++ s3.1, some a)))
       (fun a => (history, s1.1 ++ s2.1, some a)))
    (fun a => (history, s1.1, some a))

def applyCheck (st : DetState) (param_key : String) (res : List (ℚ × ℚ) × List CheckRecord × Option AnomalyEvent) : DetState :=
  { st with
    history := fun k => if k = param_key then res.1 else st.history k,
    check_log := st.check_log ++ res.2.1,
    anomaly_count := st.anomaly_count + (if res.2.2.isSome then 1 else 0) }

def rulesLoop (rules : List ThresholdRule) (st : DetState) (param_key : String) (value : ℚ)
    (timestamp : ℚ) (source : String) : DetState × Option AnomalyEvent :=
  match rules with
  | [] => (st, Option.none)
  | r :: rest =>
    if matches_pattern param_key r.parameter_pattern then
      let res := check_rule (st.history param_key) param_key value r timestamp source
      let st := applyCheck st param_key res
      res.2.2.elim (rulesLoop rest st param_key value timestamp source) (fun a => (st, some a))
    else rulesLoop rest st param_key value timestamp source

def processField (rules : List ThresholdRule) (st : DetState) (source : String)
    (timestamp : ℚ) (kv : String × PyVal) : DetState × Option AnomalyEvent :=
  if kv.2.isNumeric then
    let param_key := source ++ "." ++ kv.1
    let st := { st with value_log := st.value_log ++ [(param_key, kv.2.toRat)] }
    rulesLoop rules st param_key (kv.2.toRat) timestamp source
  else (st, Option.none)

def process (rules : List ThresholdRule) (st : DetState) (e : Event) :
    DetState × List AnomalyEvent :=
  e.payload.foldl (fun acc kv =>
    let r := processField rules acc.1 e.source e.timestamp kv
    (r.1, acc.2 ++ r.2.toList)) (st, [])

theorem rulesLoop_value_log (rules : List ThresholdRule) (st : DetState) (param_key : String)
    (value timestamp : ℚ) (source : String) :
    (rulesLoop rules st param_key value timestamp source).1.value_log = st.value_log := by
  induction rules generalizing st with
  | nil => rfl
  | cons r rest ih =>
    unfold rulesLoop
    split_ifs with h
    · cases hres : (check_rule (st.history param_key) param_key value r timestamp source).2.2 with
      | none => simp [hres, Option.elim, ih, applyCheck]
      | some a => simp [hres, Option.elim, applyCheck]
    · exact ih st

theorem processField_not_numeric (rules : List ThresholdRule) (st : DetState) (source : String)
    (timestamp : ℚ) (kv : String × PyVal) (h : kv.2.isNumeric = false) :
    processField rules st source timestamp kv = (st, Option.none) := by
  simp [processField, h]

theorem processFold_value_log (rules : List ThresholdRule) (source : String) (ts : ℚ) :
    ∀ (l : List (String × PyVal)) (st : DetState) (acc : List AnomalyEvent),
    (l.foldl (fun acc kv =>
      let r := processField rules acc.1 source ts kv
      (r.1, acc.2 ++ r.2.toList)) (st, acc)).1.value_log =
    st.value_log ++ (l.filter (fun kv => kv.2.isNumeric)).map
      (fun kv => (source ++ "." ++ kv.1, kv.2.toRat)) := by
  intro l
  induction l with
  | nil => intro st acc; simp
  | cons kv l ih =>
    intro st acc
    rw [List.foldl_cons]
    cases hn : kv.2.isNumeric with
    | false =>
      rw [List.filter_cons_of_neg (by simp [hn])]
      simpa [processField_not_numeric rules st source ts kv hn] using ih st acc
    | true =>
      rw [List.filter_cons_of_pos (by simp [hn])]
      have hpf : (processField rules st source ts kv).1.value_log =
          st.value_log ++ [(source ++ "." ++ kv.1, kv.2.toRat)] := by
        simp only [processField, hn, if_true]
        rw [rulesLoop_value_log]
      rw [ih]
      rw [hpf, List.append_assoc]
      simp

theorem processFold_skip (rules : List ThresholdRule) (source : String) (ts : ℚ) :
    ∀ (l : List (String × PyVal)) (st : DetState) (acc : List AnomalyEvent),
    ((l.filter (fun kv => kv.2.isNumeric)).foldl (fun acc kv =>
      let r := processField rules acc.1 source ts kv
      (r.1, acc.2 ++ r.2.toList)) (st, acc)) =
    (l.foldl (fun acc kv =>
      let r := processField rules acc.1 source ts kv
      (r.1, acc.2 ++ r.2.toList)) (st, acc)) := by
  intro l
  induction l with
  | nil => intro st acc; rfl
  | cons kv l ih =>
    intro st acc
    cases hn : kv.2.isNumeric with
    | false =>
      rw [List.filter_cons_of_neg (by simp [hn]), List.foldl_cons]
      simp only [processField_not_numeric rules st source ts kv hn, Option.toList_none,
        List.append_nil]
      exact ih st acc
    | true =>
      rw [List.filter_cons_of_pos (by simp [hn]), List.foldl_cons, List.foldl_cons]
      exact ih _ _

/-- **C5 (amended).** ThresholdDetector.process flattens the payload
into source.field keys; a field with a numeric value is logged to the
value-distribution file and then evaluated against the rules, while a
field with a non-numeric value is skipped entirely: it is NOT logged
and has no effect at all — process behaves as if the field were absent
from the payload. -/
theorem thresholdDetector_logging (rules : List ThresholdRule) (st : DetState) (e : Event) :
    (process rules st e).1.value_log = st.value_log ++
      (e.payload.filter (fun kv => kv.2.isNumeric)).map
        (fun kv => (e.source ++ "." ++ kv.1, kv.2.toRat)) ∧
    process rules st { e with payload := e.payload.filter (fun kv => kv.2.isNumeric) } =
      process rules st e := by
  constructor
  · exact processFold_value_log rules e.source e.timestamp e.payload st []
  · exact processFold_skip rules e.source e.timestamp e.payload st []

/-- A DATA event whose only payload field carries a string value. -/
def evNonNum : Event :=
  ⟨0, "quantum_rng", EventType.data, [("status", PyVal.pystr "ok")], Severity.info⟩

/-- **C5 (counterexample).** The claim says a non-numeric payload field
"is still logged to the value-distribution file".  It is not: process
hits the isinstance(value, (int, float)) guard and continues before the
logging call, so processing an event whose only field is the string
"ok" leaves the value-distribution log empty. -/
theorem thresholdDetector_logging_cex :
    evNonNum.payload = [("status", PyVal.pystr "ok")] ∧
    (process [] detInit evNonNum).1.value_log = [] := by
  constructor
  · rfl
  · rfl

/-- **C7 (counterexample).** The claim says '*' never matches the empty
string and never matches across a '.' separator.  Both fail for the
actual regex translation ('*' becomes ".*"): the pattern
"crypto.*.price" matches the key "crypto..price" (star matches the
empty string) and the key "crypto.btc.usd.price" (star matches
"btc.usd", crossing a '.'). -/
theorem thresholdDetector_glob_cex :
    matches_pattern "crypto..price" "crypto.*.price" = true ∧
    matches_pattern "crypto.btc.usd.price" "crypto.*.price" = true := by
  constructor
  · rw [matches_pattern_eq_globMatch "crypto..price" "crypto.*.price" (by decide)]
    exact (globMatch_concat
      ['c', 'r', 'y', 'p', 't', 'o', '.'] ['.', 'p', 'r', 'i', 'c', 'e']
      (by decide) (by decide) ("crypto..price".toList)).mpr ⟨[], by decide, by decide⟩
  · rw [matches_pattern_eq_globMatch "crypto.btc.usd.price" "crypto.*.price" (by decide)]
    exact (globMatch_concat
      ['c', 'r', 'y', 'p', 't', 'o', '.'] ['.', 'p', 'r', 'i', 'c', 'e']
      (by decide) (by decide) ("crypto.btc.usd.price".toList)).mpr
      ⟨['b', 't', 'c', '.', 'u', 's', 'd'], by decide, by decide⟩

/-- **C7 (amended).** For a rule pattern built from globSafe
characters (no residual regex metacharacter; all shipped rule patterns
qualify) and a key without newline: in _matches_pattern every non-star
pattern character (in particular '.') matches literally, and '*'
matches any possibly-empty run of non-newline characters, including
runs that contain '.' separators — for a pattern a ++ '*' ++ b with
globSafe a and b, the key matches iff it is a ++ s ++ b for some
newline-free s, and a star-free globSafe pattern matches exactly
itself.  (A key with a trailing newline is additionally accepted by
the regex '$' anchor, which matches_pattern models; a pattern with
another regex metacharacter keeps that character's regex meaning and
is outside this characterization.) -/
theorem thresholdDetector_glob_semantics (a b k : List Char)
    (ha : a.all globSafe = true) (hb : b.all globSafe = true) (hk : '\n' ∉ k) :
    (matches_pattern ⟨k⟩ ⟨a ++ '*' :: b⟩ = true ↔ ∃ s, k = a ++ s ++ b ∧ '\n' ∉ s) ∧
    (matches_pattern ⟨k⟩ ⟨a⟩ = true ↔ k = a) := by
  have ha' : '*' ∉ a := globSafe_not_star ha
  have hb' : '*' ∉ b := globSafe_not_star hb
  constructor
  · rw [matches_pattern_eq_globMatch ⟨k⟩ ⟨a ++ '*' :: b⟩ hk]
    exact globMatch_concat a b ha' hb' k
  · rw [matches_pattern_eq_globMatch ⟨k⟩ ⟨a⟩ hk]
    exact (globMatch_literal a ha' k).trans eq_comm

/-- Witness for C7: the pattern "a*b" matches the key "axb". -/
theorem thresholdDetector_glob_semantics_witness :
    matches_pattern ⟨['a', 'x', 'b']⟩ ⟨['a', '*', 'b']⟩ = true :=
  (thresholdDetector_glob_semantics ['a'] ['b'] ['a', 'x', 'b']
    (by decide) (by decide) (by decide)).1.mpr ⟨['x'], rfl, by decide⟩

end ThresholdDetector

namespace AutoCalibrator

/-!  Shallow embedding of src/src/monitoring/auto_calibrator.py
(AutoCalibrator._calibrate_threshold, _calculate_optimal_threshold,
_determine_confidence, the auto-apply step of _perform_calibration)
and of CalibrationTracker.analyze_threshold
(src/src/monitoring/calibration_tracker.py), which feeds it. -/

/-- One record of logs/calibration/threshold_hits.jsonl as read back by
CalibrationTracker.analyze_threshold (only the fields the analysis
uses). -/
structure Hit where
  value : ℚ
  threshold_value : ℚ
  triggered : Bool
deriving DecidableEq, Repr, Inhabited

/-- Insertion step of an ascending sort. -/
def insertRat (x : ℚ) : List ℚ → List ℚ
  | [] => [x]
  | y :: ys => if x ≤ y then x :: y :: ys else y :: insertRat x ys

/-- values.sort() — ascending, as a fold of ordered insertions. -/
def sortRats (l : List ℚ) : List ℚ := l.foldr insertRat []

/-- CalibrationTracker.analyze_threshold's inner percentile helper:
linear interpolation at rank k = (len-1)*p, with f = int(k) and
c = k - f. -/
def percentile (data : List ℚ) (p : ℚ) : ℚ :=
  let k := ((data.length : ℚ) - 1) * p
  let f := (⌊k⌋).toNat
  let c := k - (f : ℚ)
  if f + 1 < data.length then
    data.getD f 0 + c * (data.getD (f + 1) 0 - data.getD f 0)
  else data.getD f 0

/-- The analysis dict built by CalibrationTracker.analyze_threshold
(vmin/vmax are min(values)/max(values), i.e. the ends of the sorted
list). -/
structure Analysis where
  threshold_name : String
  total_checks : Nat
  triggered_count : Nat
  trigger_rate : ℚ
  vmin : ℚ
  vmax : ℚ
  p50 : ℚ
  p90 : ℚ
  p95 : ℚ
  p99 : ℚ
  current_threshold : ℚ
deriving DecidableEq, Repr

/-- Boolean list-prefix test over characters. -/
def isPrefixB : List Char → List Char → Bool
  | [], _ => true
  | _ :: _, [] => false
  | a :: as, b :: bs => (a == b) && isPrefixB as bs

/-- Boolean substring test: Python `sub in s`. -/
def isInfixB (sub : List Char) : List Char → Bool
  | [] => sub.isEmpty
  | b :: t => isPrefixB sub (b :: t) || isInfixB sub t

/-- CalibrationTracker.analyze_threshold restricted to the fields the
auto-calibrator consumes; the empty-hits "error" dict becomes none. -/
def analyze_threshold (name : String) (hits : List Hit) : Option Analysis :=
  if hits = [] then Option.none
  else
    let total_checks := hits.length
    let triggered_count := (hits.filter (fun h => h.triggered)).length
    let trigger_rate : ℚ :=
      if 0 < total_checks then (triggered_count : ℚ) / (total_checks : ℚ) else 0
    let values := sortRats (hits.map (fun h => h.value))
    some ⟨name, total_checks, triggered_count, trigger_rate,
      values.headI, values.getLastD 0,
      percentile values (50/100), percentile values (90/100),
      percentile values (95/100), percentile values (99/100),
      (hits.headI).threshold_value⟩

structure OptimalResult where
  value : ℚ
  change_percent : ℚ
  expected_trigger_rate : ℚ
deriving DecidableEq, Repr

/-- The expected-trigger-rate estimate at the end of
AutoCalibrator._calculate_optimal_threshold. -/
def expectedRate (target : ℚ) (name : String) (p90 p95 p99 new_value : ℚ) : ℚ :=
  if isInfixB ".min".toList name.toList || isInfixB ".trigger_above".toList name.toList then
    if new_value = p95 then 1/20
    else if new_value = p90 then 1/10
    else if new_value = p99 then 1/100
    else target
  else target

/-- The common tail of _calculate_optimal_threshold: change percent
(guarded against current_threshold = 0) and expected trigger rate. -/
def finishOptimal (target : ℚ) (a : Analysis) (new_value : ℚ) : OptimalResult :=
  ⟨new_value,
   if a.current_threshold ≠ 0 then
     (new_value - a.current_threshold) / a.current_threshold * 100
   else 0,
   expectedRate target a.threshold_name a.p90 a.p95 a.p99 new_value⟩

/-- AutoCalibrator._calculate_optimal_threshold. -/
def calculate_optimal_threshold (target : ℚ) (a : Analysis) : Option OptimalResult :=
  if isInfixB ".min".toList a.threshold_name.toList then
    if target * 2 < a.trigger_rate then
      if target * 5 < a.trigger_rate then some (finishOptimal target a a.p90)
      else some (finishOptimal target a a.p95)
    else if a.trigger_rate < target * (1/2) then some (finishOptimal target a a.p99)
    else Option.none
  else if isInfixB ".max".toList a.threshold_name.toList then
    if target * 2 < a.trigger_rate then
      if target * 5 < a.trigger_rate then some (finishOptimal target a a.p90)
      else some (finishOptimal target a a.p95)
    else if a.trigger_rate < target * (1/2) then some (finishOptimal target a a.p99)
    else Option.none
  else if isInfixB ".trigger_above".toList a.threshold_name.toList then
    if target * 2 < a.trigger_rate then some (finishOptimal target a a.p95)
    else if a.trigger_rate < target * (1/2) then some (finishOptimal target a a.p90)
    else Option.none
  else if isInfixB ".change_pct".toList a.threshold_name.toList then
    if target * 2 < a.trigger_rate then some (finishOptimal target a a.p95)
    else if a.trigger_rate < target * (1/2) then some (finishOptimal target a a.p90)
    else Option.none
  else some (finishOptimal target a a.p95)

/-- AutoCalibrator._determine_confidence. -/
def determine_confidence (total_checks : Nat) (trigger_rate : ℚ) : String :=
  if 5000 ≤ total_checks ∧ (1/20 < trigger_rate ∨ trigger_rate < 1/200) then "high"
  else if 2000 ≤ total_checks then "medium"
  else "low"

/-- The recommendation dict assembled by
AutoCalibrator._calibrate_threshold (numeric and confidence fields). -/
structure Recommendation where
  threshold_name : String
  current_value : ℚ
  recommended_value : ℚ
  change_percent : ℚ
  confidence : String
deriving DecidableEq, Repr

/-- AutoCalibrator._calibrate_threshold: analysis (none on error),
min-observations gate, optimal threshold, confidence. -/
def calibrate_threshold (min_observations : Nat) (target : ℚ) (name : String)
    (hits : List Hit) : Option Recommendation :=
  (analyze_threshold name hits).bind (fun a =>
    if a.total_checks < min_observations then Option.none
    else (calculate_optimal_threshold target a).bind (fun o =>
      some ⟨name, a.current_threshold, o.value, o.change_percent,
        determine_confidence a.total_checks a.trigger_rate⟩))

/-- AutoCalibrator._perform_calibration over a list of threshold names
(hitsOf gives each threshold's logged records): collects the
recommendations and, when auto_apply is on and confidence is high,
the (name, value) pairs written to calibrated_thresholds.json. -/
def perform_calibration (auto_apply : Bool) (min_observations : Nat) (target : ℚ)
    (hitsOf : String → List Hit) : List String → List Recommendation × List (String × ℚ)
  | [] => ([], [])
  | n :: rest =>
    let r := calibrate_threshold min_observations target n (hitsOf n)
    let acc := perform_calibration auto_apply min_observations target hitsOf rest
    r.elim acc (fun rec =>
      (rec :: acc.1,
       if auto_apply && rec.confidence == "high" then
         (rec.threshold_name, rec.recommended_value) :: acc.2
       else acc.2))

theorem perform_calibration_applied (auto_apply : Bool) (m : Nat) (t : ℚ)
    (hitsOf : String → List Hit) :
    ∀ names, (perform_calibration auto_apply m t hitsOf names).2 =
      names.filterMap (fun n => (calibrate_threshold m t n (hitsOf n)).bind
        (fun r => if auto_apply && r.confidence == "high" then
          some (r.threshold_name, r.recommended_value) else Option.none)) := by
  intro names
  induction names with
  | nil => rfl
  | cons n rest ih =>
    rw [List.filterMap_cons]
    cases hr : calibrate_threshold m t n (hitsOf n) with
    | none =>
      simp only [perform_calibration, hr, Option.elim, Option.none_bind]
      exact ih
    | some r =>
      simp only [perform_calibration, hr, Option.elim, Option.some_bind]
      rw [ih]
      split_ifs with h <;> rfl

theorem calibrate_confidence (m : Nat) (t : ℚ) (name : String) (hits : List Hit)
    (r : Recommendation) (h : calibrate_threshold m t name hits = some r) :
    ∃ a, analyze_threshold name hits = some a ∧
      r.confidence = determine_confidence a.total_checks a.trigger_rate := by
  unfold calibrate_threshold at h
  cases ha : analyze_threshold name hits with
  | none => rw [ha] at h; simp [Option.bind] at h
  | some a =>
    rw [ha] at h
    simp only [Option.bind] at h
    split_ifs at h with h1
    cases ho : calculate_optimal_threshold t a with
    | none => rw [ho] at h; simp at h
    | some o =>
      rw [ho] at h
      simp at h
      exact ⟨a, rfl, by rw [h.symm]⟩

theorem analyze_fields (name : String) (hits : List Hit) (hne : hits ≠ []) :
    ∃ a, analyze_threshold name hits = some a ∧ a.threshold_name = name ∧
      a.total_checks = hits.length := by
  unfold analyze_threshold
  rw [if_neg hne]
  exact ⟨_, rfl, rfl, rfl⟩

theorem calibrate_eq (m : Nat) (t : ℚ) (name : String) (hits : List Hit) (a : Analysis)
    (ha : analyze_threshold name hits = some a) (hm : ¬ a.total_checks < m) :
    calibrate_threshold m t name hits = (calculate_optimal_threshold t a).bind (fun o =>
      some ⟨name, a.current_threshold, o.value, o.change_percent,
        determine_confidence a.total_checks a.trigger_rate⟩) := by
  unfold calibrate_threshold
  rw [ha]
  simp only [Option.some_bind]
  rw [if_neg hm]

/-- **C8.** For a threshold whose name carries the .min suffix (hence
contains ".min", the test the code performs) and whose log has at least
min_observations checks: with the default 2 percent target, a trigger
rate above 5x target yields a recommendation of the p90 of observed
values, above 2x target (but not 5x) the p95, below 0.5x target the
p99, and otherwise no recommendation is emitted; the recommendation's
confidence is "high" exactly when total checks reach 5000 and the rate
is clearly off target (above 5 percent or below 0.5 percent); and the
pairs written to calibrated_thresholds.json are exactly the
recommendations with auto-apply on and confidence "high". -/
theorem autoCalibrator_min_calibration
    (name : String) (hits : List Hit) (min_observations : Nat) (auto_apply : Bool)
    (hitsOf : String → List Hit) (names : List String)
    (hmin : isInfixB ".min".toList name.toList = true)
    (hne : hits ≠ [])
    (hobs : min_observations ≤ hits.length) :
    ∃ a, analyze_threshold name hits = some a ∧
      a.total_checks = hits.length ∧
      ((1/50 : ℚ) * 5 < a.trigger_rate →
        ∃ r, calibrate_threshold min_observations (1/50) name hits = some r ∧
          r.recommended_value = a.p90) ∧
      ((1/50 : ℚ) * 2 < a.trigger_rate → ¬ (1/50 : ℚ) * 5 < a.trigger_rate →
        ∃ r, calibrate_threshold min_observations (1/50) name hits = some r ∧
          r.recommended_value = a.p95) ∧
      (a.trigger_rate < (1/50 : ℚ) * (1/2) →
        ∃ r, calibrate_threshold min_observations (1/50) name hits = some r ∧
          r.recommended_value = a.p99) ∧
      (¬ (1/50 : ℚ) * 2 < a.trigger_rate → ¬ a.trigger_rate < (1/50 : ℚ) * (1/2) →
        calibrate_threshold min_observations (1/50) name hits = Option.none) ∧
      (∀ r, calibrate_threshold min_observations (1/50) name hits = some r →
        (r.confidence = "high" ↔
          5000 ≤ hits.length ∧ ((1/20 : ℚ) < a.trigger_rate ∨ a.trigger_rate < (1/200 : ℚ)))) ∧
      (perform_calibration auto_apply min_observations (1/50) hitsOf names).2 =
        names.filterMap (fun n =>
          (calibrate_threshold min_observations (1/50) n (hitsOf n)).bind
          (fun r => if auto_apply && r.confidence == "high" then
            some (r.threshold_name, r.recommended_value) else Option.none)) := by
  obtain ⟨a, hA, hname, hch⟩ := analyze_fields name hits hne
  have hm : ¬ a.total_checks < min_observations := by omega
  have hcal := calibrate_eq min_observations (1/50) name hits a hA hm
  have hopt_min : isInfixB ".min".toList a.threshold_name.toList = true := by
    rw [hname]; exact hmin
  refine ⟨a, hA, hch, ?_, ?_, ?_, ?_, ?_, ?_⟩
  · intro h5
    have h2 : (1/50 : ℚ) * 2 < a.trigger_rate := by linarith
    rw [hcal]
    unfold calculate_optimal_threshold
    rw [if_pos hopt_min, if_pos h2, if_pos h5]
    exact ⟨_, rfl, rfl⟩
  · intro h2 h5n
    rw [hcal]
    unfold calculate_optimal_threshold
    rw [if_pos hopt_min, if_pos h2, if_neg h5n]
    exact ⟨_, rfl, rfl⟩
  · intro hlow
    have h2n : ¬ (1/50 : ℚ) * 2 < a.trigger_rate := by intro hx; linarith
    rw [hcal]
    unfold calculate_optimal_threshold
    rw [if_pos hopt_min, if_neg h2n, if_pos hlow]
    exact ⟨_, rfl, rfl⟩
  · intro h2n hlown
    rw [hcal]
    unfold calculate_optimal_threshold
    rw [if_pos hopt_min, if_neg h2n, if_neg hlown]
    rfl
  · intro r hr
    obtain ⟨a', hA', hc⟩ := calibrate_confidence min_observations (1/50) name hits r hr
    have haa : a' = a := by
      rw [hA] at hA'
      exact (Option.some.inj hA').symm
    rw [hc, haa, hch]
    unfold determine_confidence
    split_ifs with hcond h2000
    · exact iff_of_true rfl hcond
    · exact iff_of_false (by simp) hcond
    · exact iff_of_false (by simp) hcond
  · exact perform_calibration_applied auto_apply min_observations (1/50) hitsOf names

/-- Two logged checks: values 10 and 20 against threshold 7, the first
triggered (rate 1/2). -/
def wHits : List Hit := [⟨10, 7, true⟩, ⟨20, 7, false⟩]

def wAnalysis : Analysis := ⟨"q.min", 2, 1, 1/2, 10, 20, 15, 19, 39/2, 199/10, 7⟩

/-- Witness for C8: on wHits the trigger rate 1/2 exceeds 5x the 2
percent target, so the p90 (= 19 by linear interpolation between 10
and 20) is recommended. -/
theorem autoCalibrator_min_calibration_witness :
    ∃ r, calibrate_threshold 1 (1/50) "q.min" wHits = some r ∧
      r.recommended_value = 19 := by
  obtain ⟨a, hA, hch, hp90, -, -, -, -, -⟩ :=
    autoCalibrator_min_calibration "q.min" wHits 1 true (fun _ => []) []
      (by decide) (by decide) (by decide)
  have heval : analyze_threshold "q.min" wHits = some wAnalysis := by
    have hne' : wHits ≠ [] := by decide
    unfold analyze_threshold
    rw [if_neg hne']
    simp only [wHits, wAnalysis]
    norm_num [sortRats, insertRat, percentile, Int.floor_eq_iff]
  have haw : a = wAnalysis := by
    rw [heval] at hA
    exact (Option.some.inj hA).symm
  obtain ⟨r, hr, hv⟩ := hp90 (by rw [haw]; norm_num [wAnalysis])
  refine ⟨r, hr, ?_⟩
  rw [hv, haw]
  rfl

end AutoCalibrator

end MatrixWatcher
